import Mathlib

set_option maxRecDepth 40000
set_option maxHeartbeats 1000000

/-!
Verification development for the code-explainer worker (src/index.ts).

The TypeScript source is shallowly embedded: strings are lists of
characters, the JavaScript regular expressions used by the source are
embedded as terms of a small regex AST evaluated by a backtracking
matcher with JavaScript semantics (leftmost match, greedy/lazy
quantifier priority, capture groups, `exec` with a global flag
restarting at `lastIndex`), and every analysis function of the source
(`explainCode`, `generateArchitectureDiagram`,
`extractCoreFunctionality`, `extractComponents`, `extractBlock`,
`generateComponentDescription`) is translated into a total Lean
function over this model.
-/

namespace CodeExplainer

/-- Strings of the source are modelled as lists of characters. -/
abbrev Str := List Char

/-- Capture-group assignments recorded during a regex match: pairs of a
group number and the captured text.  When a group captures repeatedly,
the entry recorded last (rightmost in the list) wins, as in JavaScript. -/
abbrev Caps := List (Nat × Str)

/-- JavaScript word character `\w`, namely `[A-Za-z0-9_]`. -/
def wchar (c : Char) : Bool :=
  ('a' ≤ c && c ≤ 'z') || ('A' ≤ c && c ≤ 'Z') || ('0' ≤ c && c ≤ '9') || c = '_'

/-- JavaScript whitespace class `\s`: ASCII whitespace together with the
Unicode space separators, NBSP, BOM and the line separators. -/
def schar (c : Char) : Bool :=
  c ∈ [' ', '\t', '\n', '\x0b', '\x0c', '\r', ' ', ' ',
       ' ', ' ', ' ', ' ', ' ', ' ', ' ',
       ' ', ' ', ' ', ' ', ' ', ' ', ' ',
       ' ', '　', '﻿']

/-- Abstract syntax of the regular expressions appearing in the source.
`star` is the greedy `*`, `starL` the lazy `*?`, `plus` the greedy `+`,
`opt` the greedy `?`; `group n r` is the capturing group number `n`. -/
inductive RE where
  | lit : Str → RE
  | cls : (Char → Bool) → RE
  | seq : RE → RE → RE
  | alt : RE → RE → RE
  | star : RE → RE
  | starL : RE → RE
  | plus : RE → RE
  | opt : RE → RE
  | group : Nat → RE → RE

/-- Size measure used for termination of the matcher; `plus` weighs two
units so that its unfolding through `star` decreases. -/
def RE.msize : RE → Nat
  | .lit _ => 1
  | .cls _ => 1
  | .seq a b => a.msize + b.msize + 1
  | .alt a b => a.msize + b.msize + 1
  | .star a => a.msize + 1
  | .starL a => a.msize + 1
  | .plus a => a.msize + 2
  | .opt a => a.msize + 1
  | .group _ a => a.msize + 1

/-- Backtracking matcher.  `mmatch fuel r s` returns every way `r` can
match a prefix of `s`, as pairs of the capture assignments and the
remaining suffix, in JavaScript backtracking priority order (the head is
the match `exec` would report).  Recursion is structural on `fuel`
(one unit per call, so the kernel can evaluate it); an evaluation path
descends at most `msize` levels through the expression between two
quantifier unrollings and each unrolling consumes at least one
character, so the fuel supplied by `reFuel` below is never exhausted
and the zero-fuel branch is unreachable from the entry points of this
development. -/
def mmatch : Nat → RE → Str → List (Caps × Str)
  | 0, _, _ => []
  | _+1, .lit l, s => if l.isPrefixOf s then [([], s.drop l.length)] else []
  | _+1, .cls _, [] => []
  | _+1, .cls p, c :: rest => if p c then [([], rest)] else []
  | fuel+1, .seq a b, s =>
      (mmatch fuel a s).flatMap fun pr =>
        (mmatch fuel b pr.2).map fun qr => (pr.1 ++ qr.1, qr.2)
  | fuel+1, .alt a b, s => mmatch fuel a s ++ mmatch fuel b s
  | fuel+1, .opt a, s => mmatch fuel a s ++ [([], s)]
  | fuel+1, .group n a, s =>
      (mmatch fuel a s).map fun pr => (pr.1 ++ [(n, s.take (s.length - pr.2.length))], pr.2)
  | fuel+1, .star a, s =>
      ((mmatch fuel a s).flatMap fun pr =>
        if pr.2.length < s.length then
          (mmatch fuel (.star a) pr.2).map fun qr => (pr.1 ++ qr.1, qr.2)
        else []) ++ [([], s)]
  | fuel+1, .starL a, s =>
      [([], s)] ++ ((mmatch fuel a s).flatMap fun pr =>
        if pr.2.length < s.length then
          (mmatch fuel (.starL a) pr.2).map fun qr => (pr.1 ++ qr.1, qr.2)
        else [])
  | fuel+1, .plus a, s =>
      (mmatch fuel a s).flatMap fun pr =>
        (mmatch fuel (.star a) pr.2).map fun qr => (pr.1 ++ qr.1, qr.2)

/-- Fuel that is always sufficient for matching `r` against `s`: the
call depth is below `(length + 1) * (msize + 1)`. -/
def reFuel (r : RE) (s : Str) : Nat := (r.msize + 1) * (s.length + 2)

/-- Last-wins lookup of a capture group, mirroring JavaScript `match[n]`
(`none` plays the role of `undefined`). -/
def capGet (caps : Caps) (n : Nat) : Option Str :=
  (caps.reverse.find? (fun pr => pr.1 = n)).map (·.2)

/-- JavaScript `a || b` on string-or-undefined values: `undefined` and
the empty string are falsy. -/
def jsOr (a b : Option Str) : Option Str :=
  match a with
  | some s => if s = [] then b else some s
  | none => b

/-- JavaScript `a || "d"` landing on a definite string. -/
def jsGetStr (a : Option Str) (d : Str) : Str :=
  match a with
  | some s => if s = [] then d else s
  | none => d

/-- JavaScript `a || null` (used for `match[2] || null`). -/
def jsOrNull (a : Option Str) : Option Str :=
  match a with
  | some s => if s = [] then none else some s
  | none => none

/-- Fuelled body of `firstMatchFrom`; the fuel is one unit per slide of
the start position, so `code.length + 1 - i` units always suffice and
the zero-fuel branch coincides with the out-of-range answer. -/
def firstMatchFromAux (r : RE) (code : Str) : Nat → Nat → Option (Nat × Nat × Caps)
  | _, 0 => none
  | i, n+1 =>
    if i ≤ code.length then
      match (mmatch (reFuel r (code.drop i)) r (code.drop i)).head? with
      | some pr => some (i, (code.drop i).length - pr.2.length, pr.1)
      | none => if i < code.length then firstMatchFromAux r code (i+1) n else none
    else none

/-- First match of `r` in `code` at a position not before `i`, as
`(index, length, captures)`; this is one step of JavaScript `exec`,
which slides the start position forward until the regex matches. -/
def firstMatchFrom (r : RE) (code : Str) (i : Nat) : Option (Nat × Nat × Caps) :=
  firstMatchFromAux r code i (code.length + 1 - i)

/-- The loop `while ((m = re.exec(code)) !== null)` for a regex with the
`g` flag: after reporting a match at `i` of length `len`, scanning
resumes at `i + len` (or one character later for an empty match, which
none of the source's regexes can produce).  The fuel `code.length + 1`
covers every iteration since each one advances the position. -/
def execAllAux (r : RE) (code : Str) : Nat → Nat → List (Nat × Nat × Caps)
  | _, 0 => []
  | li, fuel+1 =>
      match firstMatchFrom r code li with
      | none => []
      | some (i, len, caps) => (i, len, caps) :: execAllAux r code (i + max len 1) fuel

/-- All matches of a global regex over `code`, in order. -/
def execAll (r : RE) (code : Str) : List (Nat × Nat × Caps) :=
  execAllAux r code 0 (code.length + 1)

/-- The regex `\w` as a class. -/
def reW : RE := .cls wchar

/-- The regex `\s` as a class. -/
def reS : RE := .cls schar

/-- The regex `\w+`. -/
def plusW : RE := .plus reW

/-- The regex `\s+`. -/
def plusS : RE := .plus reS

/-- The regex `\s*`. -/
def starS : RE := .star reS

/-- A negated character class `[^c]`. -/
def notch (c : Char) : RE := .cls (fun x => x ≠ c)

/-- Case-insensitive literal: each character compares through
`Char.toLower`, which is how the `i` flag behaves on the ASCII probes
of the source. -/
def cilit (s : String) : RE :=
  s.data.foldr (fun c r => .seq (.cls (fun x => x.toLower = c.toLower)) r) (.lit [])

/-- Fuelled body of `indexOfFrom`; one unit per position, so
`code.length + 1 - i` units always suffice and the zero-fuel branch
coincides with the out-of-range answer. -/
def indexOfFromAux (code : Str) (ch : Char) : Nat → Nat → Option Nat
  | _, 0 => none
  | i, n+1 =>
    if h : i < code.length then
      if code.get ⟨i, h⟩ = ch then some i else indexOfFromAux code ch (i+1) n
    else none

/-- `code.indexOf(ch, i)` of `extractBlock` (source line 608). -/
def indexOfFrom (code : Str) (ch : Char) (i : Nat) : Option Nat :=
  indexOfFromAux code ch i (code.length + 1 - i)

/-- Fuelled body of `scanClose`; one unit per loop iteration, so
`code.length + 1 - i` units always suffice and the zero-fuel branch
coincides with the end-of-input exit. -/
def scanCloseAux (code : Str) : Nat → Nat → Nat → Nat
  | i, _, 0 => i
  | i, depth, n+1 =>
    if depth = 0 then i
    else if h : i < code.length then
      scanCloseAux code (i+1)
        (if code.get ⟨i, h⟩ = '\x7b' then depth+1
         else if code.get ⟨i, h⟩ = '\x7d' then depth-1 else depth) n
    else i

/-- The brace-counting loop of `extractBlock` (lines 612-622): from
position `i` with open-brace surplus `depth`, advance (`+1` on a
brace-open, `-1` on a brace-close) until the surplus is zero or the
input ends, and return the final position (one past the matched closing
brace). -/
def scanClose (code : Str) (i : Nat) (depth : Nat) : Nat :=
  scanCloseAux code i depth (code.length + 1 - i)

/-- `extractBlock(code, startIndex)`: find the first brace-open at or
after `startIndex` (empty result if none), then scan to the matching
close and return `code.substring(startIndex, currentIndex)`. -/
def extractBlock (code : Str) (startIndex : Nat) : Str :=
  match indexOfFrom code '\x7b' startIndex with
  | none => []
  | some ob => (code.take (scanClose code (ob+1) 1)).drop startIndex

/-- `str.includes(pat)` of JavaScript: substring containment. -/
def jsIncludes (s pat : Str) : Bool :=
  match s with
  | [] => pat.isPrefixOf []
  | c :: rest => pat.isPrefixOf (c :: rest) || jsIncludes rest pat

/-- `s.toLowerCase()` on the ASCII labels the source compares against. -/
def lowerStr (s : Str) : Str := s.map Char.toLower

/-- `str.padEnd(n)`: pad with spaces on the right up to length `n`. -/
def padEnd (s : Str) (n : Nat) : Str := s ++ List.replicate (n - s.length) ' '

/-- The pattern bundle selected per language in
`generateArchitectureDiagram` (lines 60-92).  The `methodRegex` slot of
the source is assigned but never executed, so it is not modelled. -/
structure PatternSet where
  classRe : RE
  funcRe : RE
  importRe : RE

/-- JS/TS `classRegex`: `class\s+(\w+)(?:\s+extends\s+(\w+))?`. -/
def reClassJS : RE :=
  .seq (.lit "class".data) (.seq plusS (.seq (.group 1 plusW)
    (.opt (.seq plusS (.seq (.lit "extends".data) (.seq plusS (.group 2 plusW)))))))

/-- JS/TS `functionRegex`: `function\s+(\w+)`. -/
def reFuncJS : RE := .seq (.lit "function".data) (.seq plusS (.group 1 plusW))

/-- JS/TS `importRegex`:
`import\s+(?:\x7b[^\x7d]*\x7d|[^\x7b;]*)(?:\s+from)?\s+['"]([^'"]+)['"]`
(braces written here as their escapes). -/
def reImportJS : RE :=
  .seq (.lit "import".data) (.seq plusS (.seq
    (.alt (.seq (.lit "\x7b".data) (.seq (.star (notch '\x7d')) (.lit "\x7d".data)))
          (.star (.cls (fun c => c ≠ '\x7b' && c ≠ ';'))))
    (.seq (.opt (.seq plusS (.lit "from".data)))
      (.seq plusS (.seq (.cls (fun c => c = '\'' || c = '"'))
        (.seq (.group 1 (.plus (.cls (fun c => c ≠ '\'' && c ≠ '"'))))
          (.cls (fun c => c = '\'' || c = '"'))))))))

/-- Python `classRegex`: `class\s+(\w+)(?:\(([^)]+)\))?:`. -/
def reClassPy : RE :=
  .seq (.lit "class".data) (.seq plusS (.seq (.group 1 plusW)
    (.seq (.opt (.seq (.lit "(".data) (.seq (.group 2 (.plus (notch ')'))) (.lit ")".data))))
      (.lit ":".data))))

/-- Python `functionRegex`: `def\s+(\w+)`. -/
def reFuncPy : RE := .seq (.lit "def".data) (.seq plusS (.group 1 plusW))

/-- A dotted module path `\w+(?:\.\w+)*`. -/
def reDotted : RE := .seq plusW (.star (.seq (.lit ".".data) plusW))

/-- Python `importRegex`:
`(?:from\s+(\w+(?:\.\w+)*)\s+import|import\s+(\w+(?:\.\w+)*))`. -/
def reImportPy : RE :=
  .alt (.seq (.lit "from".data) (.seq plusS (.seq (.group 1 reDotted)
          (.seq plusS (.lit "import".data)))))
       (.seq (.lit "import".data) (.seq plusS (.group 2 reDotted)))

/-- Java/C# `classRegex`:
`class\s+(\w+)(?:\s+extends\s+(\w+))?(?:\s+implements\s+([^\x7b]+))?`. -/
def reClassJava : RE :=
  .seq (.lit "class".data) (.seq plusS (.seq (.group 1 plusW)
    (.seq (.opt (.seq plusS (.seq (.lit "extends".data) (.seq plusS (.group 2 plusW)))))
      (.opt (.seq plusS (.seq (.lit "implements".data)
        (.seq plusS (.group 3 (.plus (notch '\x7b'))))))))))

/-- Java/C# `functionRegex` (also its `methodRegex`):
`(?:public|private|protected|static)?\s+\w+\s+(\w+)\s*\([^)]*\)\s*\x7b`. -/
def reFuncJava : RE :=
  .seq (.opt (.alt (.lit "public".data) (.alt (.lit "private".data)
        (.alt (.lit "protected".data) (.lit "static".data)))))
    (.seq plusS (.seq plusW (.seq plusS (.seq (.group 1 plusW)
      (.seq starS (.seq (.lit "(".data) (.seq (.star (notch ')'))
        (.seq (.lit ")".data) (.seq starS (.lit "\x7b".data))))))))))

/-- Java/C# `importRegex`: `import\s+([^;]+);`. -/
def reImportJava : RE :=
  .seq (.lit "import".data) (.seq plusS (.seq (.group 1 (.plus (notch ';'))) (.lit ";".data)))

/-- Generic `classRegex`: `class\s+(\w+)`. -/
def reClassGen : RE := .seq (.lit "class".data) (.seq plusS (.group 1 plusW))

/-- Generic `functionRegex`:
`function\s+(\w+)|def\s+(\w+)|(\w+)\s*\([^)]*\)\s*\x7b`. -/
def reFuncGen : RE :=
  .alt (.seq (.lit "function".data) (.seq plusS (.group 1 plusW)))
    (.alt (.seq (.lit "def".data) (.seq plusS (.group 2 plusW)))
      (.seq (.group 3 plusW) (.seq starS (.seq (.lit "(".data)
        (.seq (.star (notch ')')) (.seq (.lit ")".data) (.seq starS (.lit "\x7b".data))))))))

/-- Generic `importRegex`: `import|require|include|using`. -/
def reImportGen : RE :=
  .alt (.lit "import".data) (.alt (.lit "require".data)
    (.alt (.lit "include".data) (.lit "using".data)))

/-- The `switch(programming_language.toLowerCase())` of
`generateArchitectureDiagram`. -/
def selectPatterns (lang : Str) : PatternSet :=
  let l := lowerStr lang
  if l = "javascript".data ∨ l = "typescript".data ∨ l = "js".data ∨ l = "ts".data then
    ⟨reClassJS, reFuncJS, reImportJS⟩
  else if l = "python".data then ⟨reClassPy, reFuncPy, reImportPy⟩
  else if l = "java".data ∨ l = "c#".data ∨ l = "csharp".data then
    ⟨reClassJava, reFuncJava, reImportJava⟩
  else ⟨reClassGen, reFuncGen, reImportGen⟩

/-- `ClassInfo` of the source: name, optional parent, match offset. -/
structure ClassInfo where
  name : Str
  parent : Option Str
  index : Nat
deriving DecidableEq

/-- `FunctionInfo` of the source: name and match offset. -/
structure FunctionInfo where
  name : Str
  index : Nat
deriving DecidableEq

/-- `Relationship` of the source; `from` and `to` are reserved-ish
words, rendered here as `fromName` and `toName`. -/
structure Relationship where
  fromName : Str
  toName : Str
  rtype : Str
deriving DecidableEq

/-- The class-extraction loop (lines 109-116): every `classRegex` match,
with `name: match[1]`, `parent: match[2] || null`, `index: match.index`.
Group 1 of every class regex always participates, so the `undefined`
default of `match[1]` is unreachable. -/
def classesOf (code lang : Str) : List ClassInfo :=
  (execAll (selectPatterns lang).classRe code).map fun m =>
    { name := (capGet m.2.2 1).getD "undefined".data
      parent := jsOrNull (capGet m.2.2 2)
      index := m.1 }

/-- All `functionRegex` matches, before the inside-a-class filter. -/
def rawFuncMatches (code lang : Str) : List (Nat × Nat × Caps) :=
  execAll (selectPatterns lang).funcRe code

/-- The `isInsideClass` test of lines 127-134: some already-found class
whose extracted block strictly contains the match offset
(`match.index > cls.index && match.index < cls.index + classCode.length`). -/
def isInsideClass (classes : List ClassInfo) (code : Str) (idx : Nat) : Bool :=
  classes.any fun cls =>
    decide (cls.index < idx) && decide (idx < cls.index + (extractBlock code cls.index).length)

/-- The function-extraction loop (lines 124-142): keep matches not
inside a class, with `name: match[1] || match[2] || match[3]`. -/
def functionsOf (code lang : Str) : List FunctionInfo :=
  (rawFuncMatches code lang).filterMap fun m =>
    if isInsideClass (classesOf code lang) code m.1 then none
    else some
      { name := (jsOr (jsOr (capGet m.2.2 1) (capGet m.2.2 2)) (capGet m.2.2 3)).getD
          "undefined".data
        index := m.1 }

/-- The import-extraction loop (lines 145-148):
`match[1] || match[2] || "external dependency"`. -/
def importsOf (code lang : Str) : List Str :=
  (execAll (selectPatterns lang).importRe code).map fun m =>
    jsGetStr (jsOr (capGet m.2.2 1) (capGet m.2.2 2)) "external dependency".data

/-- Relationship analysis (lines 157-185): one `inherits` edge per class
with a parent, then for every ordered pair of functions with different
names a `calls` edge when the callee name followed by an open paren
occurs in the caller's extracted block. -/
def relationshipsOf (classes : List ClassInfo) (functions : List FunctionInfo)
    (code : Str) : List Relationship :=
  (classes.filterMap fun cls =>
    match cls.parent with
    | some p => some { fromName := cls.name, toName := p, rtype := "inherits".data }
    | none => none)
  ++ functions.flatMap fun func =>
      let functionCode := extractBlock code func.index
      functions.filterMap fun otherFunc =>
        if func.name ≠ otherFunc.name ∧
            jsIncludes functionCode (otherFunc.name ++ "(".data) = true then
          some { fromName := func.name, toName := otherFunc.name, rtype := "calls".data }
        else none

/-- The fixed diagram header (lines 191-193). -/
def headerStr : Str :=
  "+----------------------+\n|    Code Structure    |\n+----------------------+\n".data

/-- One `    [import]` line per shown dependency (lines 198-200). -/
def renderImportLines : List Str → Str
  | [] => []
  | im :: rest => "    [".data ++ im ++ "]\n".data ++ renderImportLines rest

/-- The dependencies section (lines 196-205). -/
def renderImports (imports : List Str) : Str :=
  if imports.length > 0 then
    "\n    Dependencies:\n".data
    ++ renderImportLines (imports.take 3)
    ++ (if imports.length > 3 then "    [...more dependencies...]\n".data else [])
    ++ "\n        |\n        v\n".data
  else []

/-- The three-line box drawn for a class, at the left indent. -/
def renderBox (name : Str) : Str :=
  "    +------------------+\n".data
  ++ "    |  ".data ++ padEnd name 14 ++ "  |\n".data
  ++ "    +------------------+\n".data

/-- The three-line box drawn for a child class, at the child indent. -/
def childBox (name : Str) : Str :=
  "                 +------------------+\n".data
  ++ "                 |  ".data ++ padEnd name 14 ++ "  |\n".data
  ++ "                 +------------------+\n".data

/-- The child-class loop (lines 221-227): connector glyph (corner for
the last child, tee otherwise) followed by the child's box. -/
def renderChildLines : List ClassInfo → Str
  | [] => []
  | [c] => "    └──extends──┐\n".data ++ childBox c.name
  | c :: rest => "    ├──extends──┐\n".data ++ childBox c.name ++ renderChildLines rest

/-- One parent class: its box, its children, then a blank line
(lines 213-231). -/
def renderParentClass (classes : List ClassInfo) (cls : ClassInfo) : Str :=
  renderBox cls.name
  ++ renderChildLines (classes.filter fun c => decide (c.parent = some cls.name))
  ++ "\n".data

/-- The loop over `parentClasses` (classes without a parent). -/
def renderParentClasses (classes : List ClassInfo) : List ClassInfo → Str
  | [] => []
  | c :: rest => renderParentClass classes c ++ renderParentClasses classes rest

/-- The loop over `standaloneClasses` (lines 236-240). -/
def renderStandalone : List ClassInfo → Str
  | [] => []
  | c :: rest => renderBox c.name ++ renderStandalone rest

/-- The classes section of the diagram (lines 208-242). -/
def renderClassesSection (classes : List ClassInfo) : Str :=
  if classes.length > 0 then
    let standalone := classes.filter fun c =>
      decide (c.parent = none) && !(classes.any fun other => decide (other.parent = some c.name))
    "\n    Classes:\n".data
    ++ renderParentClasses classes (classes.filter fun c => decide (c.parent = none))
    ++ (if standalone.length > 0 then renderStandalone standalone else [])
  else []

/-- The pass over `calls` relationships (lines 252-258), threading the
`processedFunctions` set (modelled as a list with the same membership). -/
def renderCallsPass : List Relationship → List Str → Str × List Str
  | [], processed => ([], processed)
  | rel :: rest, processed =>
    if rel.fromName ∈ processed then renderCallsPass rest processed
    else
      let r := renderCallsPass rest (processed ++ [rel.fromName, rel.toName])
      ("    [".data ++ rel.fromName ++ "] ──calls──> [".data ++ rel.toName ++ "]\n".data
        ++ r.1, r.2)

/-- The pass over remaining functions (lines 261-266). -/
def renderRemainingPass : List FunctionInfo → List Str → Str
  | [], _ => []
  | f :: rest, processed =>
    if f.name ∈ processed then renderRemainingPass rest processed
    else "    [".data ++ f.name ++ "]\n".data ++ renderRemainingPass rest (processed ++ [f.name])

/-- The functions section (lines 245-267). -/
def renderFunctionsSection (functions : List FunctionInfo) (rels : List Relationship) : Str :=
  if functions.length > 0 then
    let callsPass := renderCallsPass (rels.filter fun r => decide (r.rtype = "calls".data)) []
    "\n    Functions:\n".data ++ callsPass.1 ++ renderRemainingPass functions callsPass.2
  else []

/-- The generic structure fallback (lines 270-274). -/
def fallbackBox : Str :=
  "\n    +------------------+\n    |  Implementation  |\n    +------------------+\n".data

/-- `generateArchitectureDiagram(code, programming_language)`
(lines 58-277). -/
def generateArchitectureDiagram (code lang : Str) : Str :=
  let classes := classesOf code lang
  let functions := functionsOf code lang
  let imports := importsOf code lang
  let relationships := relationshipsOf classes functions code
  headerStr
  ++ renderImports imports
  ++ renderClassesSection classes
  ++ renderFunctionsSection functions relationships
  ++ (if classes.length = 0 ∧ functions.length = 0 then fallbackBox else [])

/-- `pattern.test(code)`: does the regex match anywhere in the text. -/
def reTest (r : RE) (code : Str) : Bool := (firstMatchFrom r code 0).isSome

/-- `network` probes of `extractCoreFunctionality` (lines 289-296). -/
def networkProbes : List RE :=
  [.seq (cilit "fetch") (.seq starS (.lit "(".data)),
   cilit "http", cilit "request", cilit "api", cilit "url", cilit "endpoint"]

/-- `ui` probes (lines 297-305). -/
def uiProbes : List RE :=
  [cilit "render", cilit "component", cilit "view", cilit "display",
   cilit "ui", cilit "interface", cilit "dom"]

/-- `dataProcessing` probes (lines 306-313). -/
def dataProcessingProbes : List RE :=
  [.seq (cilit "map") (.seq starS (.lit "(".data)),
   .seq (cilit "filter") (.seq starS (.lit "(".data)),
   .seq (cilit "reduce") (.seq starS (.lit "(".data)),
   cilit "transform", cilit "convert", cilit "parse"]

/-- `authentication` probes (lines 314-321). -/
def authenticationProbes : List RE :=
  [cilit "auth", cilit "login", cilit "password", cilit "credential",
   cilit "token", cilit "permission"]

/-- `database` probes (lines 322-331); the dot of `db\.` is literal. -/
def databaseProbes : List RE :=
  [cilit "database", cilit "db.", cilit "query", cilit "sql",
   cilit "mongo", cilit "store", cilit "save", cilit "repository"]

/-- `testing` probes (lines 332-338). -/
def testingProbes : List RE :=
  [cilit "test", cilit "assert", cilit "expect", cilit "mock", cilit "spec"]

/-- `algorithm` probes (lines 339-345). -/
def algorithmProbes : List RE :=
  [cilit "algorithm", cilit "sort", cilit "search", cilit "calculate", cilit "compute"]

/-- `fileSystem` probes (lines 346-353). -/
def fileSystemProbes : List RE :=
  [cilit "file", cilit "read", cilit "write", cilit "path",
   cilit "directory", cilit "folder"]

/-- The language-specific probe pushes of lines 357-385, as the three
lists appended to `ui`, `network` and `database` respectively. -/
def languageExtras (lang : Str) : List RE × List RE × List RE :=
  let l := lowerStr lang
  if l = "javascript".data ∨ l = "typescript".data ∨ l = "js".data ∨ l = "ts".data then
    ([cilit "react", cilit "angular", cilit "vue", cilit "component", cilit "jsx", cilit "tsx"],
     [cilit "axios", cilit "fetch", cilit "xhr"],
     [cilit "mongoose", cilit "sequelize", cilit "typeorm"])
  else if l = "python".data then
    ([cilit "flask", cilit "django", cilit "template"],
     [cilit "requests", cilit "urllib"],
     [cilit "sqlalchemy", cilit "django.db", cilit "cursor"])
  else if l = "java".data then
    ([cilit "swing", cilit "javafx", cilit "awt"],
     [cilit "httpclient", cilit "urlconnection"],
     [cilit "jdbc", cilit "repository", cilit "entity"])
  else if l = "c#".data ∨ l = "csharp".data then
    ([cilit "wpf", cilit "xaml", cilit "winforms"],
     [cilit "httpclient", cilit "webclient"],
     [.seq (cilit "entity") (.seq starS (cilit "framework")), cilit "dbcontext"])
  else ([], [], [])

/-- The category table of `extractCoreFunctionality`, in its insertion
order, with the language extras pushed onto `ui`, `network` and
`database`. -/
def purposePatterns (lang : Str) : List (Str × List RE) :=
  let ex := languageExtras lang
  [("network".data, networkProbes ++ ex.2.1),
   ("ui".data, uiProbes ++ ex.1),
   ("dataProcessing".data, dataProcessingProbes),
   ("authentication".data, authenticationProbes),
   ("database".data, databaseProbes ++ ex.2.2),
   ("testing".data, testingProbes),
   ("algorithm".data, algorithmProbes),
   ("fileSystem".data, fileSystemProbes)]

/-- `matchCounts` (lines 400-410): per category, the number of its
probes that match somewhere in the code. -/
def matchCounts (code lang : Str) : List (Str × Nat) :=
  (purposePatterns lang).map fun cat => (cat.1, (cat.2.filter fun r => reTest r code).length)

/-- The `matches` record of lines 388-397 read at key `cat`: true iff
some probe of that category matched; reading a key absent from the
table (the source reads `matches.api`) yields JavaScript `undefined`,
which is falsy. -/
def matchesFlag (counts : List (Str × Nat)) (cat : Str) : Bool :=
  match counts.lookup cat with
  | some n => decide (n > 0)
  | none => false

/-- Insertion step of a stable sort by count, descending — the
behaviour of `Array.prototype.sort((a, b) => b[1] - a[1])`, which is
required to be stable. -/
def insertDescByCount (x : Str × Nat) : List (Str × Nat) → List (Str × Nat)
  | [] => [x]
  | y :: ys => if y.2 ≤ x.2 then x :: y :: ys else y :: insertDescByCount x ys

/-- Stable descending-by-count sort of the category entries. -/
def sortDescByCount (l : List (Str × Nat)) : List (Str × Nat) :=
  l.foldr insertDescByCount []

/-- `sortedCategories` (lines 413-416): sort by count descending,
drop zero-score categories, keep the names. -/
def sortedCategories (code lang : Str) : List Str :=
  ((sortDescByCount (matchCounts code lang)).filter fun e => decide (e.2 > 0)).map (·.1)

/-- The primary-purpose sentence fragment (the `switch` of
lines 430-513), given the flags record and the primary category. -/
def primaryFunctionality (counts : List (Str × Nat)) (primary : Str) : Str :=
  if primary = "ui".data then
    "implement a user interface ".data ++
    (if matchesFlag counts "network".data then
      "that communicates with external services. ".data
     else if matchesFlag counts "database".data then
      "that interacts with a database. ".data
     else "for displaying and interacting with data. ".data)
  else if primary = "network".data then
    "handle network communication, ".data ++
    (if matchesFlag counts "api".data then
      "likely serving as an API or service layer. ".data
     else "facilitating data exchange with external systems. ".data)
  else if primary = "dataProcessing".data then
    "process and transform data, ".data ++
    (if matchesFlag counts "algorithm".data then
      "implementing specific algorithms for data manipulation. ".data
     else "implementing business logic or data transformation. ".data)
  else if primary = "database".data then
    "interact with a database, ".data ++
    (if matchesFlag counts "dataProcessing".data then
      "performing data operations and transformations. ".data
     else "managing data persistence and retrieval. ".data)
  else if primary = "authentication".data then
    "handle authentication and authorization, ".data ++
    (if matchesFlag counts "ui".data then
      "providing secure user access to the interface. ".data
     else if matchesFlag counts "network".data then
      "securing API endpoints or network resources. ".data
     else "managing user credentials and permissions. ".data)
  else if primary = "testing".data then
    "implement tests for ".data ++
    (if matchesFlag counts "ui".data then "user interface components. ".data
     else if matchesFlag counts "network".data then "network communication. ".data
     else if matchesFlag counts "database".data then "database operations. ".data
     else "application functionality. ".data)
  else if primary = "algorithm".data then
    "implement specific algorithms ".data ++
    (if matchesFlag counts "dataProcessing".data then
      "for data processing and transformation. ".data
     else "to solve computational problems. ".data)
  else if primary = "fileSystem".data then
    "handle file system operations, ".data ++
    (if matchesFlag counts "dataProcessing".data then "processing file data. ".data
     else "managing file reading, writing, or organization. ".data)
  else "provide utility functions or core logic for the application. ".data

/-- The secondary-purpose name (the `switch` of lines 519-544; it has
no default branch, so an unknown name contributes nothing). -/
def secondaryName (cat : Str) : Str :=
  if cat = "ui".data then "user interface presentation".data
  else if cat = "network".data then "network communication".data
  else if cat = "dataProcessing".data then "data processing and transformation".data
  else if cat = "database".data then "database interaction".data
  else if cat = "authentication".data then "authentication and security".data
  else if cat = "testing".data then "testing and validation".data
  else if cat = "algorithm".data then "algorithmic computation".data
  else if cat = "fileSystem".data then "file system operations".data
  else []

/-- `extractCoreFunctionality(code, programming_language)`
(lines 286-550). -/
def extractCoreFunctionality (code lang : Str) : Str :=
  let counts := matchCounts code lang
  let sorted := sortedCategories code lang
  match sorted.head? with
  | none =>
      "This code appears to provide general utility functions or core logic for the application.".data
  | some primary =>
    let base := "This code appears to ".data ++ primaryFunctionality counts primary
    match sorted.get? 1 with
    | some secondary =>
        if (counts.lookup secondary).getD 0 > 1 then
          base ++ "It also includes functionality for ".data ++ secondaryName secondary
            ++ ".".data
        else base
    | none => base

/-- `classRegex` of `extractComponents` (line 567): `class\s+(\w+)`. -/
def reClassSimple : RE := .seq (.lit "class".data) (.seq plusS (.group 1 plusW))

/-- `functionRegex` of `extractComponents` (line 577):
`function\s+(\w+)`. -/
def reFuncSimple : RE := .seq (.lit "function".data) (.seq plusS (.group 1 plusW))

/-- `arrowFunctionRegex` (line 587):
`const\s+(\w+)\s*=\s*(\([^)]*\)|[^=]*)\s*=>`. -/
def reArrowFunc : RE :=
  .seq (.lit "const".data) (.seq plusS (.seq (.group 1 plusW) (.seq starS
    (.seq (.lit "=".data) (.seq starS (.seq
      (.group 2 (.alt (.seq (.lit "(".data) (.seq (.star (notch ')')) (.lit ")".data)))
                      (.star (notch '='))))
      (.seq starS (.lit "=>".data))))))))

/-- Python docstring comment regex (line 641):
`(?:'''|""")([^]*?)(?:'''|""")` — `[^]` is any character, `*?` lazy. -/
def reDocstring : RE :=
  .seq (.alt (.lit "'''".data) (.lit "\"\"\"".data))
    (.seq (.group 1 (.starL (.cls fun _ => true)))
      (.alt (.lit "'''".data) (.lit "\"\"\"".data)))

/-- JSDoc comment regex (line 644): `\/\*\*([^]*?)\*\/`. -/
def reJsdoc : RE :=
  .seq (.lit "/**".data) (.seq (.group 1 (.starL (.cls fun _ => true))) (.lit "*/".data))

/-- `\s*\*\s*` (the JSDoc asterisk stripper of line 678). -/
def reStarPad : RE := .seq starS (.seq (.lit "*".data) starS)

/-- `@\w+\s+[^\n]+` (the JSDoc tag stripper of line 680). -/
def reDocTag : RE :=
  .seq (.lit "@".data) (.seq plusW (.seq plusS (.plus (notch '\n'))))

/-- `str.replace(re, f)` with a global regex: rewrite every
non-overlapping leftmost match by `f` applied to the matched text.
All the replaced regexes of the source match at least one character,
so the position always advances; the `max len 1` guard and the fuel are
for termination only. -/
def replaceAllAux (r : RE) (f : Str → Str) (code : Str) : Nat → Nat → Str
  | li, 0 => code.drop li
  | li, fuel+1 =>
    match firstMatchFrom r code li with
    | none => code.drop li
    | some (i, len, _) =>
        (code.drop li).take (i - li) ++ f ((code.drop i).take len)
          ++ replaceAllAux r f code (i + max len 1) fuel

/-- Global regex replacement over the whole string. -/
def replaceAllRE (r : RE) (f : Str → Str) (code : Str) : Str :=
  replaceAllAux r f code 0 (code.length + 1)

/-- `String.prototype.trim()` (JavaScript whitespace on both ends). -/
def trimStr (s : Str) : Str :=
  ((s.dropWhile fun c => schar c).reverse.dropWhile fun c => schar c).reverse

/-- `code.split('\n')`. -/
def splitOnNl : Str → List Str
  | [] => [[]]
  | c :: rest =>
    if c = '\n' then [] :: splitOnNl rest
    else match splitOnNl rest with
      | [] => [[c]]
      | l :: ls => (c :: l) :: ls

/-- `arr.join(sep)`. -/
def joinWith (sep : Str) : List Str → Str
  | [] => []
  | [x] => x
  | x :: rest => x ++ sep ++ joinWith sep rest

/-- The consecutive-line-comment scan of lines 646-669: walk the lines,
collecting trimmed `//` contents, tolerating blank lines inside a
comment block, and stopping at the first other line once something was
collected. -/
def collectLineComments : List Str → List Str → Bool → List Str
  | [], acc, _ => acc
  | line :: rest, acc, inCB =>
    let t := trimStr line
    if "//".data.isPrefixOf t then
      collectLineComments rest (acc ++ [trimStr (t.drop 2)]) true
    else if inCB ∧ t = [] then collectLineComments rest acc inCB
    else if acc ≠ [] then acc
    else collectLineComments rest acc false

/-- The JSDoc/docstring normalization of lines 677-681: strip asterisk
padding, collapse whitespace, strip documentation tags, trim. -/
def cleanComment (raw : Str) : Str :=
  trimStr (replaceAllRE reDocTag (fun _ => [])
    (replaceAllRE plusS (fun _ => " ".data)
      (replaceAllRE reStarPad (fun _ => " ".data) raw)))

/-- `([A-Z])` with replacement `' $1'` (line 708), then `^.` uppercased
(line 709; `.` does not match line terminators), then trim — the
camel-case-to-words conversion. -/
def humanizeName (name : Str) : Str :=
  let spaced := replaceAllRE (.cls fun c => 'A' ≤ c && c ≤ 'Z') (fun m => ' ' :: m) name
  let upped :=
    match spaced with
    | [] => []
    | c :: rest =>
      if c = '\n' ∨ c = '\r' ∨ c = ' ' ∨ c = ' ' then c :: rest
      else c.toUpper :: rest
  trimStr upped

/-- The name-extraction of lines 692-711: first `class\s+(\w+)` or
`function\s+(\w+)|def\s+(\w+)` match (empty if none), then humanized. -/
def componentNameOf (componentCode : Str) (type : Str) : Str :=
  let raw :=
    if type = "class".data then
      match firstMatchFrom (.seq (.lit "class".data) (.seq plusS (.group 1 plusW)))
          componentCode 0 with
      | some m => (capGet m.2.2 1).getD []
      | none => []
    else
      match firstMatchFrom
          (.alt (.seq (.lit "function".data) (.seq plusS (.group 1 plusW)))
                (.seq (.lit "def".data) (.seq plusS (.group 2 plusW))))
          componentCode 0 with
      | some m => (jsOr (capGet m.2.2 1) (capGet m.2.2 2)).getD []
      | none => []
  if raw = [] then [] else humanizeName raw

/-- The description category table of lines 714-723, in insertion
order. -/
def descPatterns : List (Str × List RE) :=
  [("ui".data, [cilit "render", cilit "component", cilit "view", cilit "display",
                cilit "dom", cilit "element", cilit "ui"]),
   ("data".data, [cilit "data", cilit "state", cilit "store", cilit "model",
                  cilit "entity", cilit "repository"]),
   ("network".data, [cilit "fetch", cilit "http", cilit "request", cilit "api",
                     cilit "url", cilit "endpoint"]),
   ("utility".data, [cilit "util", cilit "helper", cilit "format", cilit "convert",
                     cilit "transform"]),
   ("event".data, [cilit "event", cilit "listener", cilit "handler", cilit "callback",
                   cilit "click", cilit "change"]),
   ("auth".data, [cilit "auth", cilit "login", cilit "permission", cilit "role",
                  cilit "access", cilit "token"]),
   ("file".data, [cilit "file", cilit "read", cilit "write", cilit "save",
                  cilit "load", cilit "path"]),
   ("math".data, [cilit "calc", cilit "compute", cilit "sum", cilit "average",
                  cilit "math", cilit "formula"])]

/-- The per-component category scores (lines 726-734). -/
def descCounts (componentCode : Str) : List (Str × Nat) :=
  descPatterns.map fun cat => (cat.1, (cat.2.filter fun r => reTest r componentCode).length)

/-- `primaryPurpose` of lines 737-739: top of the sorted nonzero
scores, absent when all scores are zero. -/
def descPrimaryPurpose (componentCode : Str) : Option Str :=
  (((sortDescByCount (descCounts componentCode)).filter fun e => decide (e.2 > 0)).map
    (·.1)).head?

/-- The name prefix `componentName ? componentName + ' - ' : ''`. -/
def namePrefix (name : Str) : Str :=
  if name = [] then [] else name ++ " - ".data

/-- The heuristic fallback description (lines 692-794). -/
def heuristicDescription (componentCode : Str) (type : Str) : Str :=
  let componentName := componentNameOf componentCode type
  let pre := namePrefix componentName
  let pp := descPrimaryPurpose componentCode
  if type = "class".data then
    if pp = some "ui".data then
      pre ++ "A UI component that handles rendering and user interaction".data
    else if pp = some "data".data then
      pre ++ "Manages data and state for the application".data
    else if pp = some "network".data then
      pre ++ "Provides services or API interactions".data
    else if pp = some "auth".data then
      pre ++ "Handles authentication and authorization".data
    else if pp = some "file".data then
      pre ++ "Manages file operations and storage".data
    else if jsIncludes componentCode "extends".data
        || jsIncludes componentCode "implements".data then
      pre ++ "A base class that defines core functionality".data
    else pre ++ "Encapsulates related functionality and data".data
  else
    let hasParameters :=
      reTest (.seq (.lit "(".data) (.seq (.plus (notch ')')) (.lit ")".data))) componentCode
    let hasReturn := reTest (.lit "return".data) componentCode
    if pp = some "ui".data then
      pre ++ (if hasReturn then "Generates".data else "Renders".data) ++ " UI elements".data
        ++ (if hasParameters then " based on input parameters".data else [])
    else if pp = some "data".data then
      pre ++ (if hasReturn then "Processes and transforms".data else "Manages".data)
        ++ " data".data ++ (if hasParameters then " from input parameters".data else [])
    else if pp = some "network".data then
      pre ++ "Handles network communication".data
        ++ (if hasParameters then " with specified endpoints".data else [])
    else if pp = some "utility".data then
      pre ++ "Utility function that ".data
        ++ (if hasReturn then "processes input and returns a result".data
            else "performs operations".data)
    else if pp = some "event".data then
      pre ++ "Event handler that responds to user interactions".data
    else if pp = some "auth".data then
      pre ++ "Manages authentication or authorization processes".data
    else if pp = some "file".data then
      pre ++ "Handles file system operations".data
    else if pp = some "math".data then
      pre ++ "Performs mathematical calculations".data
        ++ (if hasParameters then " on input values".data else [])
    else if hasReturn ∧ hasParameters then
      pre ++ "Processes input parameters and returns a result".data
    else if hasReturn then pre ++ "Computes and returns a value".data
    else if hasParameters then pre ++ "Performs operations based on input parameters".data
    else pre ++ "Performs a specific operation or task".data

/-- The comment-recovery attempt of lines 673-687: match the chosen
comment regex, normalize the capture, and use it when non-empty. -/
def commentDescription (r : RE) (componentCode : Str) (type : Str) : Str :=
  match firstMatchFrom r componentCode 0 with
  | some m =>
    let comment := cleanComment ((capGet m.2.2 1).getD [])
    if comment.length > 0 then comment else heuristicDescription componentCode type
  | none => heuristicDescription componentCode type

/-- `generateComponentDescription(componentCode, type)`
(lines 634-795). -/
def generateComponentDescription (componentCode : Str) (type : Str) : Str :=
  if jsIncludes componentCode "\"\"\"".data || jsIncludes componentCode "'''".data then
    commentDescription reDocstring componentCode type
  else if jsIncludes componentCode "/**".data then
    commentDescription reJsdoc componentCode type
  else if jsIncludes componentCode "//".data then
    let commentLines := collectLineComments (splitOnNl componentCode) [] false
    if commentLines ≠ [] then joinWith " ".data commentLines
    else heuristicDescription componentCode type
  else heuristicDescription componentCode type

/-- A named component with its synthesized description. -/
structure Component where
  name : Str
  description : Str
deriving DecidableEq

/-- `extractComponents(code, programming_language)` (lines 559-597).
The language argument is received but never consulted. -/
def extractComponents (code lang : Str) : List Component × List Component :=
  let mainClasses := (execAll reClassSimple code).map fun m =>
    { name := (capGet m.2.2 1).getD "undefined".data
      description := generateComponentDescription (extractBlock code m.1) "class".data
      : Component }
  let mainFunctions := (execAll reFuncSimple code).map fun m =>
    { name := (capGet m.2.2 1).getD "undefined".data
      description := generateComponentDescription (extractBlock code m.1) "function".data
      : Component }
  let arrowFunctions := (execAll reArrowFunc code).map fun m =>
    { name := (capGet m.2.2 1).getD "undefined".data
      description := generateComponentDescription (extractBlock code m.1) "function".data
      : Component }
  (mainClasses, mainFunctions ++ arrowFunctions)

/-- `explainCode(code, programming_language)` (lines 17-49): the fixed
report template around the three analyses. -/
def explainCode (code lang : Str) : Str :=
  let architectureDiagram := generateArchitectureDiagram code lang
  let coreFunctionality := extractCoreFunctionality code lang
  let comps := extractComponents code lang
  "\n  # Code Analysis for ".data ++ lang
  ++ " Code\n  \n  ## Architecture Diagram\n  ```\n  ".data
  ++ architectureDiagram
  ++ "\n  ```\n  \n  ## Core Functionality\n  ".data
  ++ coreFunctionality
  ++ "\n  \n  ## Main Classes:\n  ".data
  ++ joinWith "\n".data (comps.1.map fun c => "- ".data ++ c.name ++ ": ".data ++ c.description)
  ++ "\n  \n  ## Main Functions:\n  ".data
  ++ joinWith "\n".data (comps.2.map fun f => "- ".data ++ f.name ++ ": ".data ++ f.description)
  ++ "\n  \n  Would you like me to explain all the functions and classes in detail? Or are you more interested in a specific part?\n  ".data

/-- One step of brace-nesting depth: up on a brace-open, down on a
brace-close, unchanged otherwise (specification-side notion used to
state what the `extractBlock` scan computes). -/
def depthStep (d : Int) (c : Char) : Int :=
  if c = '\x7b' then d + 1 else if c = '\x7d' then d - 1 else d

/-- Net brace-nesting depth of `code` over the half-open index interval
from `ob` to `k`. -/
def depthAfter (code : Str) (ob k : Nat) : Int :=
  ((code.take k).drop ob).foldl depthStep 0

/-- Number of positions at which `pat` occurs in `s` (occurrences may
overlap; used to state that a box is emitted twice). -/
def countOccur (pat : Str) : Str → Nat
  | [] => if pat.isPrefixOf [] then 1 else 0
  | c :: rest => (if pat.isPrefixOf (c :: rest) then 1 else 0) + countOccur pat rest

/-- Declarative matching relation for the regex AST: `Matches r t` says
the expression `r` can match exactly the string `t`.  The backtracking
matcher is sound for it (`mmatch_sound` below). -/
inductive Matches : RE → Str → Prop where
  | lit (l : Str) : Matches (.lit l) l
  | cls {p : Char → Bool} {c : Char} : p c = true → Matches (.cls p) [c]
  | seq {a b : RE} {t u : Str} : Matches a t → Matches b u → Matches (.seq a b) (t ++ u)
  | altL {a b : RE} {t : Str} : Matches a t → Matches (.alt a b) t
  | altR {a b : RE} {t : Str} : Matches b t → Matches (.alt a b) t
  | optNone {a : RE} : Matches (.opt a) []
  | optSome {a : RE} {t : Str} : Matches a t → Matches (.opt a) t
  | grp {n : Nat} {a : RE} {t : Str} : Matches a t → Matches (.group n a) t
  | starNil {a : RE} : Matches (.star a) []
  | starCons {a : RE} {t u : Str} :
      Matches a t → Matches (.star a) u → Matches (.star a) (t ++ u)
  | starLNil {a : RE} : Matches (.starL a) []
  | starLCons {a : RE} {t u : Str} :
      Matches a t → Matches (.starL a) u → Matches (.starL a) (t ++ u)
  | plus {a : RE} {t u : Str} :
      Matches a t → Matches (.star a) u → Matches (.plus a) (t ++ u)

/-! ## General helper lemmas -/

theorem infix_appL {m a : Str} (b : Str) (h : m <:+: a) : m <:+: a ++ b := by
  obtain ⟨s, t, hs⟩ := h
  exact ⟨s, t ++ b, by rw [← hs]; simp⟩

theorem infix_appR (a : Str) {m b : Str} (h : m <:+: b) : m <:+: a ++ b := by
  obtain ⟨s, t, hs⟩ := h
  exact ⟨a ++ s, t, by rw [← hs]; simp⟩

/-! ## C1: totality and fixed section headers of the report -/

/-- C1: for every code text and every language label, `explainCode`
returns (it is a total function of this embedding, so it cannot raise)
a non-empty text containing the fixed section headers "Architecture
Diagram", "Core Functionality", "Main Classes:" and "Main Functions:". -/
theorem explainCode_total_headers (code lang : Str) :
    explainCode code lang ≠ [] ∧
    "Architecture Diagram".data <:+: explainCode code lang ∧
    "Core Functionality".data <:+: explainCode code lang ∧
    "Main Classes:".data <:+: explainCode code lang ∧
    "Main Functions:".data <:+: explainCode code lang := by
  have hexp : explainCode code lang = "\n  # Code Analysis for ".data ++ lang
      ++ " Code\n  \n  ## Architecture Diagram\n  ```\n  ".data
      ++ generateArchitectureDiagram code lang
      ++ "\n  ```\n  \n  ## Core Functionality\n  ".data
      ++ extractCoreFunctionality code lang
      ++ "\n  \n  ## Main Classes:\n  ".data
      ++ joinWith "\n".data ((extractComponents code lang).1.map fun c =>
          "- ".data ++ c.name ++ ": ".data ++ c.description)
      ++ "\n  \n  ## Main Functions:\n  ".data
      ++ joinWith "\n".data ((extractComponents code lang).2.map fun f =>
          "- ".data ++ f.name ++ ": ".data ++ f.description)
      ++ "\n  \n  Would you like me to explain all the functions and classes in detail? Or are you more interested in a specific part?\n  ".data := rfl
  rw [hexp]
  refine ⟨?_, ?_, ?_, ?_, ?_⟩
  · refine List.append_ne_nil_of_left_ne_nil ?_ _
    refine List.append_ne_nil_of_left_ne_nil ?_ _
    refine List.append_ne_nil_of_left_ne_nil ?_ _
    refine List.append_ne_nil_of_left_ne_nil ?_ _
    refine List.append_ne_nil_of_left_ne_nil ?_ _
    refine List.append_ne_nil_of_left_ne_nil ?_ _
    refine List.append_ne_nil_of_left_ne_nil ?_ _
    refine List.append_ne_nil_of_left_ne_nil ?_ _
    refine List.append_ne_nil_of_left_ne_nil ?_ _
    refine List.append_ne_nil_of_left_ne_nil ?_ _
    decide
  · exact infix_appL _ (infix_appL _ (infix_appL _ (infix_appL _ (infix_appL _ (infix_appL _
      (infix_appL _ (infix_appL _ (infix_appR _ (by decide)))))))))
  · exact infix_appL _ (infix_appL _ (infix_appL _ (infix_appL _ (infix_appL _ (infix_appL _
      (infix_appR _ (by decide)))))))
  · exact infix_appL _ (infix_appL _ (infix_appL _ (infix_appL _ (infix_appR _ (by decide)))))
  · exact infix_appL _ (infix_appL _ (infix_appR _ (by decide)))

/-! ## C6: determinism of `explainCode` -/

/-- C6: `explainCode` is a pure function of its two arguments (in the
source all regex state is created afresh inside each call), so two
calls with identical arguments yield identical output. -/
theorem explainCode_deterministic (c l c' l' : Str) (hc : c = c') (hl : l = l') :
    explainCode c l = explainCode c' l' := by rw [hc, hl]

/-- Witness for C6 at concrete input. -/
theorem explainCode_deterministic_witness :
    explainCode "function f() \x7b \x7d".data "js".data
      = explainCode "function f() \x7b \x7d".data "js".data :=
  explainCode_deterministic _ _ _ _ rfl rfl

/-! ## C9: `extractComponents` ignores the language label -/

/-- C9: the component lists are independent of the language label: the
`programming_language` parameter of `extractComponents` is never
consulted, so any two labels yield identical results. -/
theorem extractComponents_language_independent (code l1 l2 : Str) :
    extractComponents code l1 = extractComponents code l2 := rfl

/-! ## C7: the empty-input scenario -/

/-- C7: on `explain("", "python")` the diagram contains the generic
"Implementation" fallback box, the functionality text is the generic
utility sentence, and both component lists are empty. -/
theorem explain_empty_python :
    fallbackBox <:+: generateArchitectureDiagram [] "python".data ∧
    extractCoreFunctionality [] "python".data =
      "This code appears to provide general utility functions or core logic for the application.".data ∧
    (extractComponents [] "python".data).1 = [] ∧
    (extractComponents [] "python".data).2 = [] := by
  refine ⟨⟨headerStr, [], by decide⟩, by decide, by decide, by decide⟩

/-! ## C2: doc-comment recovery and the extracted block -/

/-- C2 counterexample: a function immediately preceded by the block
comment `/** Computes the sum */` does NOT get that comment as its
description — `extractComponents` passes `extractBlock(code, matchIndex)`
to the description synthesizer, and that block starts at the `function`
keyword, so the preceding comment is outside it and the heuristic
fallback fires. -/
theorem comment_before_function_not_recovered :
    (extractComponents
        "/** Computes the sum */ function add(a, b) \x7b return a + b; \x7d".data
        "javascript".data).2
      = [⟨"add".data, "Add - Processes input parameters and returns a result".data⟩] ∧
    "Add - Processes input parameters and returns a result".data ≠ "Computes the sum".data := by
  constructor
  · decide
  · decide

/-- C2 amended: a block comment `/** Computes the sum */` is recovered
as the description exactly when it lies inside the function's extracted
block (which begins at the `function` keyword); a comment immediately
preceding the declaration is outside the block, so the heuristic
fallback description is synthesized instead. -/
theorem comment_recovery_inside_block :
    (extractComponents
        "function add(a, b) \x7b /** Computes the sum */ return a + b; \x7d".data
        "javascript".data).2
      = [⟨"add".data, "Computes the sum".data⟩] ∧
    (extractComponents
        "/** Computes the sum */ function add(a, b) \x7b return a + b; \x7d".data
        "javascript".data).2
      = [⟨"add".data, "Add - Processes input parameters and returns a result".data⟩] := by
  constructor
  · decide
  · decide

/-! ## Characterization of `indexOfFrom` -/

theorem indexOfFromAux_none_iff (code : Str) (ch : Char) :
    ∀ n i, code.length + 1 - i ≤ n →
      (indexOfFromAux code ch i n = none ↔
        ∀ j, j < code.length → i ≤ j → code.get? j ≠ some ch) := by
  intro n
  induction n with
  | zero =>
    intro i hn
    constructor
    · intro _ j hj hij
      omega
    · intro _
      rfl
  | succ n ih =>
    intro i hn
    show (if h : i < code.length then
        if code.get ⟨i, h⟩ = ch then some i else indexOfFromAux code ch (i+1) n
      else none) = none ↔ _
    by_cases h : i < code.length
    · rw [dif_pos h]
      by_cases hg : code.get ⟨i, h⟩ = ch
      · rw [if_pos hg]
        constructor
        · intro hcontra
          exact absurd hcontra (by simp)
        · intro hall
          exact absurd (List.get?_eq_get h ▸ congrArg some hg) (hall i h le_rfl)
      · rw [if_neg hg]
        rw [ih (i+1) (by omega)]
        constructor
        · intro hall j hj hij
          rcases Nat.eq_or_lt_of_le hij with rfl | hlt
          · rw [List.get?_eq_get h]
            exact fun hc => hg (Option.some.inj hc)
          · exact hall j hj hlt
        · intro hall j hj hij
          exact hall j hj (by omega)
    · rw [dif_neg h]
      constructor
      · intro _ j hj hij
        omega
      · intro _
        rfl

theorem indexOfFrom_none_iff (code : Str) (ch : Char) (i : Nat) :
    indexOfFrom code ch i = none ↔
      ∀ j, j < code.length → i ≤ j → code.get? j ≠ some ch :=
  indexOfFromAux_none_iff code ch (code.length + 1 - i) i le_rfl

theorem indexOfFromAux_some_iff (code : Str) (ch : Char) :
    ∀ n i ob, code.length + 1 - i ≤ n →
      (indexOfFromAux code ch i n = some ob ↔
        (i ≤ ob ∧ ob < code.length ∧ code.get? ob = some ch ∧
          ∀ j, j < code.length → i ≤ j → j < ob → code.get? j ≠ some ch)) := by
  intro n
  induction n with
  | zero =>
    intro i ob hn
    constructor
    · intro hcontra
      exact absurd hcontra (by simp [indexOfFromAux])
    · intro ⟨h1, h2, _, _⟩
      omega
  | succ n ih =>
    intro i ob hn
    show (if h : i < code.length then
        if code.get ⟨i, h⟩ = ch then some i else indexOfFromAux code ch (i+1) n
      else none) = some ob ↔ _
    by_cases h : i < code.length
    · rw [dif_pos h]
      by_cases hg : code.get ⟨i, h⟩ = ch
      · rw [if_pos hg]
        constructor
        · intro he
          obtain rfl : i = ob := Option.some.inj he
          exact ⟨le_rfl, h, by rw [List.get?_eq_get h, hg], fun j _ hij hji => by omega⟩
        · intro ⟨hio, hob, hgo, hall⟩
          rcases Nat.eq_or_lt_of_le hio with rfl | hlt
          · rfl
          · exact absurd (List.get?_eq_get h ▸ congrArg some hg) (hall i h le_rfl hlt)
      · rw [if_neg hg]
        rw [ih (i+1) ob (by omega)]
        constructor
        · intro ⟨hio, hob, hgo, hall⟩
          refine ⟨by omega, hob, hgo, fun j hj hij hji => ?_⟩
          rcases Nat.eq_or_lt_of_le hij with rfl | hlt
          · rw [List.get?_eq_get h]
            exact fun hc => hg (Option.some.inj hc)
          · exact hall j hj hlt hji
        · intro ⟨hio, hob, hgo, hall⟩
          refine ⟨?_, hob, hgo, fun j hj hij hji => hall j hj (by omega) hji⟩
          rcases Nat.eq_or_lt_of_le hio with rfl | hlt
          · exact absurd hgo (by rw [List.get?_eq_get h]; exact fun hc => hg (Option.some.inj hc))
          · omega
    · rw [dif_neg h]
      constructor
      · intro hcontra
        exact absurd hcontra (by simp)
      · intro ⟨h1, h2, _, _⟩
        omega

theorem indexOfFrom_some_iff (code : Str) (ch : Char) (i ob : Nat) :
    indexOfFrom code ch i = some ob ↔
      (i ≤ ob ∧ ob < code.length ∧ code.get? ob = some ch ∧
        ∀ j, j < code.length → i ≤ j → j < ob → code.get? j ≠ some ch) :=
  indexOfFromAux_some_iff code ch (code.length + 1 - i) i ob le_rfl

/-! ## Depth bookkeeping for the brace scan -/

theorem depthAfter_self (code : Str) (ob : Nat) : depthAfter code ob ob = 0 := by
  unfold depthAfter
  rw [List.drop_eq_nil_of_le (by simp [List.length_take])]
  rfl

theorem depthAfter_succ (code : Str) (ob k : Nat) (h : k < code.length) (hob : ob ≤ k) :
    depthAfter code ob (k+1) = depthStep (depthAfter code ob k) (code.get ⟨k, h⟩) := by
  unfold depthAfter
  rw [List.take_succ, List.getElem?_eq_getElem h,
    List.drop_append_of_le_length (by simp [List.length_take]; omega),
    List.foldl_append]
  rfl

theorem scanCloseAux_spec (code : Str) (ob : Nat) :
    ∀ (n i depth : Nat), code.length + 1 - i ≤ n → i ≤ code.length → ob < i →
      (depth : Int) = depthAfter code ob i →
      i ≤ scanCloseAux code i depth n ∧ scanCloseAux code i depth n ≤ code.length ∧
      (∀ k, i ≤ k → k < scanCloseAux code i depth n → 0 < depthAfter code ob k) ∧
      (depthAfter code ob (scanCloseAux code i depth n) = 0 ∨
        scanCloseAux code i depth n = code.length) := by
  intro n
  induction n with
  | zero =>
    intro i depth hn hi _ _
    omega
  | succ n ih =>
    intro i depth hn hi hobi hdepth
    show (let e := if depth = 0 then i
        else if h : i < code.length then
          scanCloseAux code (i+1)
            (if code.get ⟨i, h⟩ = '\x7b' then depth+1
             else if code.get ⟨i, h⟩ = '\x7d' then depth-1 else depth) n
        else i;
      i ≤ e ∧ e ≤ code.length ∧ (∀ k, i ≤ k → k < e → 0 < depthAfter code ob k) ∧
        (depthAfter code ob e = 0 ∨ e = code.length))
    by_cases hd : depth = 0
    · simp only [if_pos hd]
      refine ⟨le_rfl, hi, fun k h1 h2 => by omega, Or.inl ?_⟩
      rw [← hdepth, hd]
      rfl
    · simp only [if_neg hd]
      by_cases h : i < code.length
      · rw [dif_pos h]
        set depth' := if code.get ⟨i, h⟩ = '\x7b' then depth+1
          else if code.get ⟨i, h⟩ = '\x7d' then depth-1 else depth with hdef
        have hstep : (depth' : Int) = depthAfter code ob (i+1) := by
          rw [depthAfter_succ code ob i h (by omega), ← hdepth, hdef]
          unfold depthStep
          by_cases h1 : code.get ⟨i, h⟩ = '\x7b'
          · rw [if_pos h1, if_pos h1]
            push_cast
            ring
          · by_cases h2 : code.get ⟨i, h⟩ = '\x7d'
            · rw [if_neg h1, if_pos h2, if_neg h1, if_pos h2]
              have hone : 1 ≤ depth := by omega
              push_cast [hone]
              ring
            · rw [if_neg h1, if_neg h2, if_neg h1, if_neg h2]
        obtain ⟨e1, e2, e3, e4⟩ := ih (i+1) depth' (by omega) (by omega) (by omega) hstep
        refine ⟨by omega, e2, fun k hk1 hk2 => ?_, e4⟩
        rcases Nat.eq_or_lt_of_le hk1 with rfl | hlt
        · rw [← hdepth]
          have : depth ≥ 1 := by omega
          omega
        · exact e3 k hlt hk2
      · rw [dif_neg h]
        exact ⟨le_rfl, hi, fun k h1 h2 => by omega, Or.inr (by omega)⟩

/-! ## C3: `extractBlock` when no brace-open follows -/

/-- C3 counterexample: on input with no brace-open at or after the
start index, `extractBlock` returns the empty string, NOT the remainder
of the text to end-of-input. -/
theorem extractBlock_no_brace_counterexample :
    extractBlock "function add".data 0 = [] ∧
    extractBlock "function add".data 0 ≠ List.drop 0 "function add".data := by
  constructor
  · decide
  · decide

/-- C3 amended: when no brace-open occurs at or after `startIndex`,
`extractBlock` returns the empty string (and, being total, does not
raise). -/
theorem extractBlock_no_brace (code : Str) (s : Nat)
    (h : ∀ j, j < code.length → s ≤ j → code.get? j ≠ some '\x7b') :
    extractBlock code s = [] := by
  unfold extractBlock
  rw [(indexOfFrom_none_iff code '\x7b' s).mpr h]

/-- Witness for the amended C3 at a concrete truncated declaration. -/
theorem extractBlock_no_brace_witness :
    extractBlock "function add(a, b)".data 0 = [] :=
  extractBlock_no_brace "function add(a, b)".data 0 (by decide)

/-! ## C4: full characterization of `extractBlock` -/

/-- C4: `extractBlock` returns an empty result when no brace-open
occurs at or after `startOffset`; otherwise, writing `ob` for the first
such brace-open, it returns the text from `startOffset` up to an index
`e` such that the brace-nesting depth (`+1` per brace-open, `-1` per
brace-close) stays positive strictly inside the scanned region and at
`e` either returns to zero — in which case position `e-1` holds the
matched closing brace, which is included — or the input is exhausted
(`e` is the input length).  The function is total, so it never raises. -/
theorem extractBlock_characterization (code : Str) (s : Nat) :
    ((∀ j, j < code.length → s ≤ j → code.get? j ≠ some '\x7b') →
      extractBlock code s = []) ∧
    (∀ ob, s ≤ ob → code.get? ob = some '\x7b' →
      (∀ j, j < code.length → s ≤ j → j < ob → code.get? j ≠ some '\x7b') →
      ∃ e, extractBlock code s = (code.take e).drop s ∧ ob < e ∧ e ≤ code.length ∧
        (∀ k, ob < k → k < e → 0 < depthAfter code ob k) ∧
        (depthAfter code ob e = 0 ∨ e = code.length) ∧
        (e < code.length → depthAfter code ob e = 0) ∧
        (depthAfter code ob e = 0 →
          ob + 2 ≤ e ∧ code.get? (e-1) = some '\x7d')) := by
  constructor
  · intro h
    unfold extractBlock
    rw [(indexOfFrom_none_iff code '\x7b' s).mpr h]
  · intro ob hs hob hprior
    have hoblt : ob < code.length := by
      by_contra hc
      rw [List.get?_eq_none.mpr (by omega)] at hob
      exact Option.noConfusion hob
    have hiof : indexOfFrom code '\x7b' s = some ob :=
      (indexOfFrom_some_iff code '\x7b' s ob).mpr ⟨hs, hoblt, hob, hprior⟩
    have hobget : code.get ⟨ob, hoblt⟩ = '\x7b' := by
      rw [List.get?_eq_get hoblt] at hob
      exact Option.some.inj hob
    have hone : ((1 : Nat) : Int) = depthAfter code ob (ob+1) := by
      rw [depthAfter_succ code ob ob hoblt le_rfl, depthAfter_self, depthStep, if_pos hobget]
      norm_num
    obtain ⟨e1, e2, e3, e4⟩ :=
      scanCloseAux_spec code ob (code.length + 1 - (ob+1)) (ob+1) 1 le_rfl
        (by omega) (by omega) hone
    set e := scanCloseAux code (ob+1) 1 (code.length + 1 - (ob+1)) with he
    have heb : extractBlock code s = (code.take e).drop s := by
      unfold extractBlock
      rw [hiof]
      rfl
    have hposin : ∀ k, ob < k → k < e → 0 < depthAfter code ob k := by
      intro k hk1 hk2
      exact e3 k (by omega) hk2
    have hzero_cons : depthAfter code ob e = 0 →
        ob + 2 ≤ e ∧ code.get? (e-1) = some '\x7d' := by
      intro hz
      have hne : e ≠ ob + 1 := by
        intro hcontra
        rw [hcontra, ← hone] at hz
        omega
      have he2 : ob + 2 ≤ e := by omega
      have hel : e - 1 < code.length := by omega
      have hstep : depthAfter code ob e =
          depthStep (depthAfter code ob (e-1)) (code.get ⟨e-1, hel⟩) := by
        have : e - 1 + 1 = e := by omega
        rw [← depthAfter_succ code ob (e-1) hel (by omega), this]
      have hpos : 0 < depthAfter code ob (e-1) := hposin (e-1) (by omega) (by omega)
      rw [hz] at hstep
      unfold depthStep at hstep
      refine ⟨he2, ?_⟩
      rw [List.get?_eq_get hel]
      by_cases h1 : code.get ⟨e-1, hel⟩ = '\x7b'
      · rw [if_pos h1] at hstep
        omega
      · by_cases h2 : code.get ⟨e-1, hel⟩ = '\x7d'
        · rw [h2]
        · rw [if_neg h1, if_neg h2] at hstep
          omega
    refine ⟨e, heb, by omega, e2, hposin, e4, ?_, hzero_cons⟩
    intro hlt
    rcases e4 with hz | hlen
    · exact hz
    · omega

/-- Witness for C4: part one at an input with no brace, part two at a
concrete nested-brace input. -/
theorem extractBlock_characterization_witness :
    extractBlock "ab".data 0 = [] ∧
    (∃ e, extractBlock "x\x7b\x7dc".data 0 = (("x\x7b\x7dc".data).take e).drop 0 ∧
      1 < e ∧ e ≤ ("x\x7b\x7dc".data).length ∧
      (∀ k, 1 < k → k < e → 0 < depthAfter "x\x7b\x7dc".data 1 k) ∧
      (depthAfter "x\x7b\x7dc".data 1 e = 0 ∨ e = ("x\x7b\x7dc".data).length) ∧
      (e < ("x\x7b\x7dc".data).length → depthAfter "x\x7b\x7dc".data 1 e = 0) ∧
      (depthAfter "x\x7b\x7dc".data 1 e = 0 →
        1 + 2 ≤ e ∧ ("x\x7b\x7dc".data).get? (e-1) = some '\x7d')) :=
  ⟨(extractBlock_characterization "ab".data 0).1 (by decide),
   (extractBlock_characterization "x\x7b\x7dc".data 0).2 1 (by omega) (by decide) (by decide)⟩

/-! ## C8: the secondary-purpose clause -/

/-- No primary-purpose sentence contains the secondary-clause marker:
every branch of the primary `switch` is a fixed sentence free of it. -/
theorem marker_not_in_primary (counts : List (Str × Nat)) (primary : Str) :
    ¬ ("It also includes functionality for ".data <:+:
        ("This code appears to ".data ++ primaryFunctionality counts primary)) := by
  unfold primaryFunctionality
  split_ifs <;> decide

/-- C8: the functionality summary contains the secondary clause exactly
when a second-ranked category exists with score strictly greater
than 1, and in that case the summary is the primary sentence followed
by the one clause naming the second-ranked category. -/
theorem secondary_clause_iff (code lang : Str) :
    ("It also includes functionality for ".data <:+: extractCoreFunctionality code lang
      ↔ ∃ secondary, (sortedCategories code lang).get? 1 = some secondary ∧
          ((matchCounts code lang).lookup secondary).getD 0 > 1) ∧
    (∀ primary secondary, (sortedCategories code lang).head? = some primary →
      (sortedCategories code lang).get? 1 = some secondary →
      ((matchCounts code lang).lookup secondary).getD 0 > 1 →
      extractCoreFunctionality code lang =
        "This code appears to ".data ++ primaryFunctionality (matchCounts code lang) primary
          ++ "It also includes functionality for ".data ++ secondaryName secondary
          ++ ".".data) := by
  constructor
  · cases hh : (sortedCategories code lang).head? with
    | none =>
      have hout : extractCoreFunctionality code lang =
          "This code appears to provide general utility functions or core logic for the application.".data := by
        simp only [extractCoreFunctionality]
        rw [hh]
      rw [hout]
      have hnil : sortedCategories code lang = [] := List.head?_eq_none_iff.mp hh
      constructor
      · intro hcontra
        exact absurd hcontra (by decide)
      · intro ⟨sec, hsec, _⟩
        rw [hnil] at hsec
        exact Option.noConfusion hsec
    | some primary =>
      cases hs : (sortedCategories code lang).get? 1 with
      | none =>
        have hout : extractCoreFunctionality code lang =
            "This code appears to ".data
              ++ primaryFunctionality (matchCounts code lang) primary := by
          simp only [extractCoreFunctionality]
          rw [hh, hs]
        rw [hout]
        constructor
        · intro hcontra
          exact absurd hcontra (marker_not_in_primary _ _)
        · intro ⟨sec, hsec, _⟩
          exact Option.noConfusion hsec
      | some secondary =>
        by_cases hgt : ((matchCounts code lang).lookup secondary).getD 0 > 1
        · have hout : extractCoreFunctionality code lang =
              "This code appears to ".data
                ++ primaryFunctionality (matchCounts code lang) primary
                ++ "It also includes functionality for ".data
                ++ secondaryName secondary ++ ".".data := by
            simp only [extractCoreFunctionality]
            rw [hh, hs]
            simp only [if_pos hgt]
          rw [hout]
          constructor
          · intro _
            exact ⟨secondary, rfl, hgt⟩
          · intro _
            exact infix_appL _ (infix_appL _ (infix_appR _ (List.infix_refl _)))
        · have hout : extractCoreFunctionality code lang =
              "This code appears to ".data
                ++ primaryFunctionality (matchCounts code lang) primary := by
            simp only [extractCoreFunctionality]
            rw [hh, hs]
            simp only [if_neg hgt]
          rw [hout]
          constructor
          · intro hcontra
            exact absurd hcontra (marker_not_in_primary _ _)
          · intro ⟨sec, hsec, hgt'⟩
            cases Option.some.inj hsec
            exact absurd hgt' hgt
  · intro primary secondary h1 h2 h3
    simp only [extractCoreFunctionality]
    rw [h1, h2]
    simp only [if_pos h3]

/-- Witness for C8 at a concrete input whose second-ranked category
(`ui`) scores 2. -/
theorem secondary_clause_iff_witness :
    extractCoreFunctionality "http url render component".data "go".data =
      "This code appears to ".data
        ++ primaryFunctionality (matchCounts "http url render component".data "go".data)
            "network".data
        ++ "It also includes functionality for ".data ++ secondaryName "ui".data
        ++ ".".data :=
  (secondary_clause_iff "http url render component".data "go".data).2
    "network".data "ui".data (by decide) (by decide) (by decide)

/-! ## C10: standalone parent-less classes are drawn twice -/

theorem countOccur_append (pat : Str) (hp : pat ≠ []) :
    ∀ a b : Str, countOccur pat a + countOccur pat b ≤ countOccur pat (a ++ b) := by
  intro a
  induction a with
  | nil =>
    intro b
    have h0 : countOccur pat [] = 0 := by
      cases pat with
      | nil => exact absurd rfl hp
      | cons p pr => rfl
    simp [h0]
  | cons c a' ih =>
    intro b
    show (if pat.isPrefixOf (c :: a') then 1 else 0) + countOccur pat a' + countOccur pat b
      ≤ (if pat.isPrefixOf (c :: a' ++ b) then 1 else 0) + countOccur pat (a' ++ b)
    have hif : (if pat.isPrefixOf (c :: a') then 1 else 0)
        ≤ (if pat.isPrefixOf (c :: a' ++ b) then (1:Nat) else 0) := by
      by_cases h : pat.isPrefixOf (c :: a')
      · have h2 : pat.isPrefixOf (c :: a' ++ b) := by
          rw [List.isPrefixOf_iff_prefix] at h ⊢
          exact h.trans (List.prefix_append _ _)
        rw [if_pos h, if_pos h2]
      · rw [if_neg h]
        omega
    have := ih b
    omega

theorem countOccur_pos_of_infix {pat s : Str} (hp : pat ≠ []) (h : pat <:+: s) :
    1 ≤ countOccur pat s := by
  obtain ⟨u, v, huv⟩ := h
  have h1 : 1 ≤ countOccur pat (pat ++ v) := by
    cases pat with
    | nil => exact absurd rfl hp
    | cons p pr =>
      show 1 ≤ (if (p :: pr).isPrefixOf (p :: (pr ++ v)) then 1 else 0) + _
      rw [if_pos (by rw [List.isPrefixOf_iff_prefix]; exact List.prefix_append _ _)]
      omega

  have h2 := countOccur_append pat hp u (pat ++ v)
  rw [← List.append_assoc, huv] at h2
  omega

theorem box_infix_renderParentClasses (classes : List ClassInfo) :
    ∀ l c, c ∈ l → renderBox c.name <:+: renderParentClasses classes l := by
  intro l
  induction l with
  | nil =>
    intro c hc
    exact absurd hc (List.not_mem_nil c)
  | cons x rest ih =>
    intro c hc
    show renderBox c.name <:+: renderParentClass classes x ++ renderParentClasses classes rest
    rcases List.mem_cons.mp hc with rfl | hmem
    · refine infix_appL _ ?_
      exact infix_appL _ (infix_appL _ (List.infix_refl _))
    · exact infix_appR _ (ih c hmem)

theorem box_infix_renderStandalone :
    ∀ l c, c ∈ l → renderBox c.name <:+: renderStandalone l := by
  intro l
  induction l with
  | nil =>
    intro c hc
    exact absurd hc (List.not_mem_nil c)
  | cons x rest ih =>
    intro c hc
    show renderBox c.name <:+: renderBox x.name ++ renderStandalone rest
    rcases List.mem_cons.mp hc with rfl | hmem
    · exact infix_appL _ (List.infix_refl _)
    · exact infix_appR _ (ih c hmem)

/-- C10: every extracted class with no parent that is not named as the
parent of any other extracted class has its box emitted (at least)
twice in the architecture diagram — once by the parent-classes pass and
once again by the standalone-classes pass. -/
theorem lone_class_box_twice (code lang : Str) (c : ClassInfo)
    (hc : c ∈ classesOf code lang) (hp : c.parent = none)
    (hnp : ∀ o ∈ classesOf code lang, o.parent ≠ some c.name) :
    2 ≤ countOccur (renderBox c.name) (generateArchitectureDiagram code lang) := by
  have hbne : renderBox c.name ≠ [] := by
    refine List.append_ne_nil_of_left_ne_nil ?_ _
    refine List.append_ne_nil_of_left_ne_nil ?_ _
    refine List.append_ne_nil_of_left_ne_nil ?_ _
    refine List.append_ne_nil_of_left_ne_nil ?_ _
    decide
  set classes := classesOf code lang with hclasses
  set standalone := classes.filter fun cl =>
    decide (cl.parent = none) && !(classes.any fun other => decide (other.parent = some cl.name))
    with hsdef
  have hmemp : c ∈ classes.filter fun cl => decide (cl.parent = none) :=
    List.mem_filter.mpr ⟨hc, by simp [hp]⟩
  have hmems : c ∈ standalone := by
    refine List.mem_filter.mpr ⟨hc, ?_⟩
    simp only [Bool.and_eq_true, decide_eq_true_eq, Bool.not_eq_true']
    refine ⟨hp, ?_⟩
    rw [← Bool.not_eq_true]
    intro hany
    obtain ⟨o, ho, hoe⟩ := List.any_eq_true.mp hany
    exact hnp o ho (of_decide_eq_true hoe)
  have hcs : renderClassesSection classes =
      "\n    Classes:\n".data
        ++ renderParentClasses classes (classes.filter fun cl => decide (cl.parent = none))
        ++ renderStandalone standalone := by
    simp only [renderClassesSection]
    rw [if_pos (List.length_pos.mpr (List.ne_nil_of_mem hc)),
      if_pos (List.length_pos.mpr (List.ne_nil_of_mem hmems))]
  have hrpc : 1 ≤ countOccur (renderBox c.name)
      (renderParentClasses classes (classes.filter fun cl => decide (cl.parent = none))) :=
    countOccur_pos_of_infix hbne (box_infix_renderParentClasses classes _ c hmemp)
  have hrst : 1 ≤ countOccur (renderBox c.name) (renderStandalone standalone) :=
    countOccur_pos_of_infix hbne (box_infix_renderStandalone standalone c hmems)
  have hcsc : 2 ≤ countOccur (renderBox c.name) (renderClassesSection classes) := by
    rw [hcs]
    have h1 := countOccur_append (renderBox c.name) hbne
      ("\n    Classes:\n".data
        ++ renderParentClasses classes (classes.filter fun cl => decide (cl.parent = none)))
      (renderStandalone standalone)
    have h2 := countOccur_append (renderBox c.name) hbne "\n    Classes:\n".data
      (renderParentClasses classes (classes.filter fun cl => decide (cl.parent = none)))
    omega
  have hdiag : generateArchitectureDiagram code lang =
      headerStr ++ renderImports (importsOf code lang)
        ++ renderClassesSection classes
        ++ renderFunctionsSection (functionsOf code lang)
            (relationshipsOf classes (functionsOf code lang) code)
        ++ (if classes.length = 0 ∧ (functionsOf code lang).length = 0 then fallbackBox
            else []) := rfl
  rw [hdiag]
  have h3 := countOccur_append (renderBox c.name) hbne
    (headerStr ++ renderImports (importsOf code lang)) (renderClassesSection classes)
  have h4 := countOccur_append (renderBox c.name) hbne
    (headerStr ++ renderImports (importsOf code lang) ++ renderClassesSection classes)
    (renderFunctionsSection (functionsOf code lang)
      (relationshipsOf classes (functionsOf code lang) code))
  have h5 := countOccur_append (renderBox c.name) hbne
    (headerStr ++ renderImports (importsOf code lang) ++ renderClassesSection classes
      ++ renderFunctionsSection (functionsOf code lang)
          (relationshipsOf classes (functionsOf code lang) code))
    (if classes.length = 0 ∧ (functionsOf code lang).length = 0 then fallbackBox else [])
  omega

/-- Witness for C10 at a concrete single-class input. -/
theorem lone_class_box_twice_witness :
    2 ≤ countOccur (renderBox "A".data)
        (generateArchitectureDiagram "class A ".data "js".data) :=
  lone_class_box_twice "class A ".data "js".data
    { name := "A".data, parent := none, index := 0 }
    (by decide) rfl (by decide)

/-! ## Soundness of the matcher with respect to `Matches` -/

theorem mmatch_sound : ∀ (fuel : Nat) (r : RE) (s : Str) (pr : Caps × Str),
    pr ∈ mmatch fuel r s → ∃ t, s = t ++ pr.2 ∧ Matches r t := by
  intro fuel
  induction fuel with
  | zero =>
    intro r s pr h
    exact absurd h (List.not_mem_nil pr)
  | succ fuel ih =>
    intro r s pr h
    cases r with
    | lit l =>
      simp only [mmatch] at h
      by_cases hp : l.isPrefixOf s
      · rw [if_pos hp] at h
        obtain rfl := List.mem_singleton.mp h
        obtain ⟨u, rfl⟩ := List.isPrefixOf_iff_prefix.mp hp
        exact ⟨l, by simp [List.drop_left], Matches.lit l⟩
      · rw [if_neg hp] at h
        exact absurd h (List.not_mem_nil pr)
    | cls p =>
      cases s with
      | nil => exact absurd h (by simp [mmatch])
      | cons c rest =>
        simp only [mmatch] at h
        by_cases hp : p c
        · rw [if_pos hp] at h
          obtain rfl := List.mem_singleton.mp h
          exact ⟨[c], rfl, Matches.cls hp⟩
        · rw [if_neg hp] at h
          exact absurd h (List.not_mem_nil pr)
    | seq a b =>
      simp only [mmatch] at h
      obtain ⟨pr1, h1, h2⟩ := List.mem_flatMap.mp h
      obtain ⟨qr, hq, rfl⟩ := List.mem_map.mp h2
      obtain ⟨t1, rfl, hm1⟩ := ih a s pr1 h1
      obtain ⟨t2, ht2, hm2⟩ := ih b pr1.2 qr hq
      exact ⟨t1 ++ t2, by rw [ht2]; simp, Matches.seq hm1 hm2⟩
    | alt a b =>
      simp only [mmatch] at h
      rcases List.mem_append.mp h with h1 | h1
      · obtain ⟨t, ht, hm⟩ := ih a s pr h1
        exact ⟨t, ht, Matches.altL hm⟩
      · obtain ⟨t, ht, hm⟩ := ih b s pr h1
        exact ⟨t, ht, Matches.altR hm⟩
    | opt a =>
      simp only [mmatch] at h
      rcases List.mem_append.mp h with h1 | h1
      · obtain ⟨t, ht, hm⟩ := ih a s pr h1
        exact ⟨t, ht, Matches.optSome hm⟩
      · obtain rfl := List.mem_singleton.mp h1
        exact ⟨[], rfl, Matches.optNone⟩
    | group n a =>
      simp only [mmatch] at h
      obtain ⟨pr1, h1, rfl⟩ := List.mem_map.mp h
      obtain ⟨t, ht, hm⟩ := ih a s pr1 h1
      exact ⟨t, ht, Matches.grp hm⟩
    | star a =>
      simp only [mmatch] at h
      rcases List.mem_append.mp h with h1 | h1
      · obtain ⟨pr1, hp1, hin⟩ := List.mem_flatMap.mp h1
        by_cases hlen : pr1.2.length < s.length
        · rw [if_pos hlen] at hin
          obtain ⟨qr, hq, rfl⟩ := List.mem_map.mp hin
          obtain ⟨t1, rfl, hm1⟩ := ih a s pr1 hp1
          obtain ⟨t2, ht2, hm2⟩ := ih (.star a) pr1.2 qr hq
          exact ⟨t1 ++ t2, by rw [ht2]; simp, Matches.starCons hm1 hm2⟩
        · rw [if_neg hlen] at hin
          exact absurd hin (List.not_mem_nil pr)
      · obtain rfl := List.mem_singleton.mp h1
        exact ⟨[], rfl, Matches.starNil⟩
    | starL a =>
      simp only [mmatch] at h
      rcases List.mem_append.mp h with h1 | h1
      · obtain rfl := List.mem_singleton.mp h1
        exact ⟨[], rfl, Matches.starLNil⟩
      · obtain ⟨pr1, hp1, hin⟩ := List.mem_flatMap.mp h1
        by_cases hlen : pr1.2.length < s.length
        · rw [if_pos hlen] at hin
          obtain ⟨qr, hq, rfl⟩ := List.mem_map.mp hin
          obtain ⟨t1, rfl, hm1⟩ := ih a s pr1 hp1
          obtain ⟨t2, ht2, hm2⟩ := ih (.starL a) pr1.2 qr hq
          exact ⟨t1 ++ t2, by rw [ht2]; simp, Matches.starLCons hm1 hm2⟩
        · rw [if_neg hlen] at hin
          exact absurd hin (List.not_mem_nil pr)
    | plus a =>
      simp only [mmatch] at h
      obtain ⟨pr1, h1, h2⟩ := List.mem_flatMap.mp h
      obtain ⟨qr, hq, rfl⟩ := List.mem_map.mp h2
      obtain ⟨t1, rfl, hm1⟩ := ih a s pr1 h1
      obtain ⟨t2, ht2, hm2⟩ := ih (.star a) pr1.2 qr hq
      exact ⟨t1 ++ t2, by rw [ht2]; simp, Matches.plus hm1 hm2⟩

/-- A position reported by `firstMatchFromAux` carries a `Matches`
parse of a prefix of the text from that position. -/
theorem firstMatchFromAux_sound (r : RE) (code : Str) :
    ∀ (n i j len : Nat) (caps : Caps),
      firstMatchFromAux r code i n = some (j, len, caps) →
      ∃ t rest, code.drop j = t ++ rest ∧ Matches r t := by
  intro n
  induction n with
  | zero =>
    intro i j len caps h
    exact absurd h (by simp [firstMatchFromAux])
  | succ n ihn =>
    intro i j len caps h
    simp only [firstMatchFromAux] at h
    by_cases hi : i ≤ code.length
    · rw [if_pos hi] at h
      cases hh : (mmatch (reFuel r (code.drop i)) r (code.drop i)).head? with
      | some pr =>
        rw [hh] at h
        have hij : i = j := congrArg Prod.fst (Option.some.inj h)
        subst hij
        have hmem : pr ∈ mmatch (reFuel r (code.drop i)) r (code.drop i) :=
          List.mem_of_mem_head? hh
        obtain ⟨t, ht, hm⟩ := mmatch_sound _ _ _ _ hmem
        exact ⟨t, pr.2, ht, hm⟩
      | none =>
        rw [hh] at h
        by_cases hlt : i < code.length
        · rw [if_pos hlt] at h
          exact ihn (i+1) j len caps h
        · rw [if_neg hlt] at h
          exact absurd h (by simp)
    · rw [if_neg hi] at h
      exact absurd h (by simp)

/-- Every match reported by the `exec` loop carries a `Matches` parse
of a prefix of the text from the reported index. -/
theorem execAllAux_sound (r : RE) (code : Str) :
    ∀ (fuel li : Nat) (m : Nat × Nat × Caps), m ∈ execAllAux r code li fuel →
      ∃ t rest, code.drop m.1 = t ++ rest ∧ Matches r t := by
  intro fuel
  induction fuel with
  | zero =>
    intro li m h
    exact absurd h (List.not_mem_nil m)
  | succ fuel ih =>
    intro li m h
    simp only [execAllAux] at h
    cases hh : firstMatchFrom r code li with
    | none =>
      rw [hh] at h
      exact absurd h (List.not_mem_nil m)
    | some it =>
      obtain ⟨i, len, caps⟩ := it
      rw [hh] at h
      rcases List.mem_cons.mp h with rfl | hmem
      · exact firstMatchFromAux_sound r code (code.length + 1 - li) li i len caps hh
      · exact ih (i + max len 1) m hmem

theorem execAll_sound (r : RE) (code : Str) (m : Nat × Nat × Caps)
    (h : m ∈ execAll r code) :
    ∃ t rest, code.drop m.1 = t ++ rest ∧ Matches r t :=
  execAllAux_sound r code (code.length + 1) 0 m h

/-! ## Inversion lemmas for `Matches` -/

theorem matches_lit {l t : Str} (h : Matches (.lit l) t) : t = l := by
  cases h
  rfl

theorem matches_seq {a b : RE} {t : Str} (h : Matches (.seq a b) t) :
    ∃ u v, t = u ++ v ∧ Matches a u ∧ Matches b v := by
  cases h with
  | seq h1 h2 => exact ⟨_, _, rfl, h1, h2⟩

theorem matches_alt {a b : RE} {t : Str} (h : Matches (.alt a b) t) :
    Matches a t ∨ Matches b t := by
  cases h with
  | altL h1 => exact Or.inl h1
  | altR h1 => exact Or.inr h1

theorem matches_opt {a : RE} {t : Str} (h : Matches (.opt a) t) :
    t = [] ∨ Matches a t := by
  cases h with
  | optNone => exact Or.inl rfl
  | optSome h1 => exact Or.inr h1

theorem matches_group {n : Nat} {a : RE} {t : Str} (h : Matches (.group n a) t) :
    Matches a t := by
  cases h with
  | grp h1 => exact h1

theorem matches_star_cls {p : Char → Bool} {t : Str}
    (h : Matches (.star (.cls p)) t) : ∀ c ∈ t, p c = true := by
  generalize hr : RE.star (.cls p) = r0 at h
  induction h with
  | lit l => exact absurd hr (by intro hc; cases hc)
  | cls _ => exact absurd hr (by intro hc; cases hc)
  | seq _ _ _ _ => exact absurd hr (by intro hc; cases hc)
  | altL _ _ => exact absurd hr (by intro hc; cases hc)
  | altR _ _ => exact absurd hr (by intro hc; cases hc)
  | optNone => exact absurd hr (by intro hc; cases hc)
  | optSome _ _ => exact absurd hr (by intro hc; cases hc)
  | grp _ _ => exact absurd hr (by intro hc; cases hc)
  | starNil =>
    intro c hc
    exact absurd hc (List.not_mem_nil c)
  | starCons h1 h2 ih1 ih2 =>
    cases hr
    intro c hc
    rcases List.mem_append.mp hc with hc1 | hc2
    · cases h1 with
      | cls hpc =>
        obtain rfl := List.mem_singleton.mp hc1
        exact hpc
    · exact ih2 rfl c hc2
  | starLNil => exact absurd hr (by intro hc; cases hc)
  | starLCons _ _ _ _ => exact absurd hr (by intro hc; cases hc)
  | plus _ _ _ _ => exact absurd hr (by intro hc; cases hc)

theorem matches_plus_cls {p : Char → Bool} {t : Str}
    (h : Matches (.plus (.cls p)) t) : t ≠ [] ∧ ∀ c ∈ t, p c = true := by
  cases h with
  | plus h1 h2 =>
    cases h1 with
    | cls hpc =>
      refine ⟨by simp, ?_⟩
      intro c hc
      rcases List.mem_append.mp hc with hc1 | hc2
      · obtain rfl := List.mem_singleton.mp hc1
        exact hpc
      · exact matches_star_cls h2 c hc2

/-! ## Character-class facts and the run-prefix bound -/

theorem schar_not_wchar {c : Char} (h : schar c = true) : wchar c = false := by
  simp only [schar, List.mem_cons, List.not_mem_nil, or_false, decide_eq_true_eq] at h
  rcases h with rfl | rfl | rfl | rfl | rfl | rfl | rfl | rfl | rfl | rfl | rfl | rfl | rfl
    | rfl | rfl | rfl | rfl | rfl | rfl | rfl | rfl | rfl | rfl | rfl | rfl
  all_goals decide

theorem wchar_not_schar {c : Char} (h : wchar c = true) : schar c = false := by
  by_cases hs : schar c = true
  · rw [schar_not_wchar hs] at h
    exact absurd h (by simp)
  · exact Bool.not_eq_true _ ▸ hs

theorem class_word_all_wchar : ∀ c ∈ "class".data, wchar c = true := by decide

/-- If an all-`P` run `t` is a prefix of `A ++ (b :: B')` where `A` is
all-`P` and `b` is not, then `t` is a prefix of `A`. -/
theorem run_prefix_le {P : Char → Bool} {A t rest : Str} {b : Char} {B' : Str}
    (hA : ∀ c ∈ A, P c = true) (ht : ∀ c ∈ t, P c = true) (hb : P b = false)
    (heq : t ++ rest = A ++ (b :: B')) : ∃ A', t ++ A' = A := by
  have htp : t <+: A ++ (b :: B') := ⟨rest, heq⟩
  have hAp : A <+: A ++ (b :: B') := List.prefix_append _ _
  by_cases hle : t.length ≤ A.length
  · exact List.prefix_of_prefix_length_le htp hAp hle
  · exfalso
    obtain ⟨t', ht'⟩ := List.prefix_of_prefix_length_le hAp htp (by omega)
    cases t' with
    | nil =>
      rw [← ht'] at hle
      simp at hle
    | cons x t'' =>
      have hcc : (x :: t'') ++ rest = b :: B' := by
        rw [← ht', List.append_assoc] at heq
        exact List.append_cancel_left heq
      rw [List.cons_append] at hcc
      injection hcc with h1 _
      have hx : P x = true := ht x (by rw [← ht']; exact List.mem_append_right A (List.mem_cons_self _ _))
      rw [h1, hb] at hx
      exact absurd hx (by simp)

/-! ## Shape of class-regex matches -/

theorem shape_group_tail {tail : RE} :
    ∀ u, Matches (.seq (.group 1 plusW) tail) u →
      ∃ v w, u = v ++ w ∧ v ≠ [] ∧ ∀ c ∈ v, wchar c = true := by
  intro u h
  obtain ⟨v, w, rfl, hv, _⟩ := matches_seq h
  obtain ⟨hne, hall⟩ := matches_plus_cls (matches_group hv)
  exact ⟨v, w, rfl, hne, hall⟩

theorem shape_group_only :
    ∀ u, Matches (.group 1 plusW) u →
      ∃ v w, u = v ++ w ∧ v ≠ [] ∧ ∀ c ∈ v, wchar c = true := by
  intro u h
  obtain ⟨hne, hall⟩ := matches_plus_cls (matches_group h)
  exact ⟨u, [], by simp, hne, hall⟩

/-- Every class regex of the source matches text of the shape
`"class"`, then a nonempty whitespace run, then a nonempty word run. -/
theorem class_shape_core {X : RE} {t : Str}
    (hX : ∀ u, Matches X u → ∃ v w, u = v ++ w ∧ v ≠ [] ∧ ∀ c ∈ v, wchar c = true)
    (h : Matches (.seq (.lit "class".data) (.seq plusS X)) t) :
    ∃ a v w, t = "class".data ++ (a ++ (v ++ w)) ∧ a ≠ [] ∧ (∀ c ∈ a, schar c = true) ∧
      v ≠ [] ∧ (∀ c ∈ v, wchar c = true) := by
  obtain ⟨u1, u2, rfl, h1, h2⟩ := matches_seq h
  obtain rfl := matches_lit h1
  obtain ⟨a, u3, rfl, ha, h3⟩ := matches_seq h2
  obtain ⟨hane, hall⟩ := matches_plus_cls ha
  obtain ⟨v, w, rfl, hvne, hvall⟩ := hX u3 h3
  exact ⟨a, v, w, rfl, hane, hall, hvne, hvall⟩

/-! ## No function-regex match can start at a class-regex match -/

theorem no_collision_js {s : Str}
    (hc : ∃ t r, s = t ++ r ∧ Matches reClassJS t)
    (hf : ∃ t r, s = t ++ r ∧ Matches reFuncJS t) : False := by
  obtain ⟨t1, r1, hs1, hm1⟩ := hc
  obtain ⟨a, v, w, hts, -, -, -, -⟩ := class_shape_core shape_group_tail hm1
  have hhead : s.head? = some 'c' := by rw [hs1, hts]; rfl
  obtain ⟨t2, r2, hs2, hm2⟩ := hf
  obtain ⟨u, vv, rfl, hu, -⟩ := matches_seq hm2
  obtain rfl := matches_lit hu
  have h2 : s.head? = some 'f' := by rw [hs2]; rfl
  rw [hhead] at h2
  exact absurd (Option.some.inj h2) (by decide)

theorem no_collision_py {s : Str}
    (hc : ∃ t r, s = t ++ r ∧ Matches reClassPy t)
    (hf : ∃ t r, s = t ++ r ∧ Matches reFuncPy t) : False := by
  obtain ⟨t1, r1, hs1, hm1⟩ := hc
  obtain ⟨a, v, w, hts, -, -, -, -⟩ := class_shape_core shape_group_tail hm1
  have hhead : s.head? = some 'c' := by rw [hs1, hts]; rfl
  obtain ⟨t2, r2, hs2, hm2⟩ := hf
  obtain ⟨u, vv, rfl, hu, -⟩ := matches_seq hm2
  obtain rfl := matches_lit hu
  have h2 : s.head? = some 'd' := by rw [hs2]; rfl
  rw [hhead] at h2
  exact absurd (Option.some.inj h2) (by decide)

theorem matches_mods {m : Str}
    (h : Matches (.alt (.lit "public".data) (.alt (.lit "private".data)
      (.alt (.lit "protected".data) (.lit "static".data)))) m) :
    m = "public".data ∨ m = "private".data ∨ m = "protected".data ∨ m = "static".data := by
  rcases matches_alt h with h1 | h1
  · exact Or.inl (matches_lit h1)
  · rcases matches_alt h1 with h2 | h2
    · exact Or.inr (Or.inl (matches_lit h2))
    · rcases matches_alt h2 with h3 | h3
      · exact Or.inr (Or.inr (Or.inl (matches_lit h3)))
      · exact Or.inr (Or.inr (Or.inr (matches_lit h3)))

theorem no_collision_java {s : Str}
    (hc : ∃ t r, s = t ++ r ∧ Matches reClassJava t)
    (hf : ∃ t r, s = t ++ r ∧ Matches reFuncJava t) : False := by
  obtain ⟨t1, r1, hs1, hm1⟩ := hc
  obtain ⟨a, v, w, hts, -, -, -, -⟩ := class_shape_core shape_group_tail hm1
  have hhead : s.head? = some 'c' := by rw [hs1, hts]; rfl
  obtain ⟨t2, r2, hs2, hm2⟩ := hf
  obtain ⟨m, q, rfl, hm', hq⟩ := matches_seq hm2
  obtain ⟨sp, q', rfl, hsp, -⟩ := matches_seq hq
  obtain ⟨hspne, hspall⟩ := matches_plus_cls hsp
  rcases matches_opt hm' with rfl | hmods
  · cases sp with
    | nil => exact absurd rfl hspne
    | cons c0 sp' =>
      have hsc : schar c0 = true := hspall c0 (List.mem_cons_self _ _)
      have hh2 : s.head? = some c0 := by rw [hs2]; rfl
      rw [hhead] at hh2
      obtain rfl := Option.some.inj hh2
      exact absurd hsc (by decide)
  · rcases matches_mods hmods with rfl | rfl | rfl | rfl
    · have hh2 : s.head? = some 'p' := by rw [hs2]; rfl
      rw [hhead] at hh2
      exact absurd (Option.some.inj hh2) (by decide)
    · have hh2 : s.head? = some 'p' := by rw [hs2]; rfl
      rw [hhead] at hh2
      exact absurd (Option.some.inj hh2) (by decide)
    · have hh2 : s.head? = some 'p' := by rw [hs2]; rfl
      rw [hhead] at hh2
      exact absurd (Option.some.inj hh2) (by decide)
    · have hh2 : s.head? = some 's' := by rw [hs2]; rfl
      rw [hhead] at hh2
      exact absurd (Option.some.inj hh2) (by decide)

theorem no_collision_gen {s : Str}
    (hc : ∃ t r, s = t ++ r ∧ Matches reClassGen t)
    (hf : ∃ t r, s = t ++ r ∧ Matches reFuncGen t) : False := by
  obtain ⟨t1, r1, hs1, hm1⟩ := hc
  obtain ⟨a, v, w, hts, hane, haall, hvne, hvall⟩ := class_shape_core shape_group_only hm1
  have hhead : s.head? = some 'c' := by rw [hs1, hts]; rfl
  obtain ⟨t2, r2, hs2, hm2⟩ := hf
  rcases matches_alt hm2 with hA | hBC
  · obtain ⟨u, vv, rfl, hu, -⟩ := matches_seq hA
    obtain rfl := matches_lit hu
    have hh2 : s.head? = some 'f' := by rw [hs2]; rfl
    rw [hhead] at hh2
    exact absurd (Option.some.inj hh2) (by decide)
  rcases matches_alt hBC with hB | hC
  · obtain ⟨u, vv, rfl, hu, -⟩ := matches_seq hB
    obtain rfl := matches_lit hu
    have hh2 : s.head? = some 'd' := by rw [hs2]; rfl
    rw [hhead] at hh2
    exact absurd (Option.some.inj hh2) (by decide)
  · obtain ⟨g, q, rfl, hg, hq⟩ := matches_seq hC
    obtain ⟨hgne, hgall⟩ := matches_plus_cls (matches_group hg)
    obtain ⟨t2s, q2, rfl, hst, hq2⟩ := matches_seq hq
    have ht2all : ∀ c ∈ t2s, schar c = true := matches_star_cls hst
    obtain ⟨u3, q3, rfl, hu3, -⟩ := matches_seq hq2
    obtain rfl := matches_lit hu3
    cases a with
    | nil => exact absurd rfl hane
    | cons a0 a' =>
    have ha0 : schar a0 = true := haall a0 (List.mem_cons_self _ _)
    have e1 : s = g ++ (t2s ++ ('(' :: (q3 ++ r2))) := by
      rw [hs2]
      simp
    have e2 : s = "class".data ++ (a0 :: (a' ++ ((v ++ w) ++ r1))) := by
      rw [hs1, hts]
      simp
    obtain ⟨g', hg'⟩ := run_prefix_le class_word_all_wchar hgall
      (schar_not_wchar ha0) (e1.symm.trans e2)
    have e3 : s = g ++ (g' ++ (a0 :: (a' ++ ((v ++ w) ++ r1)))) := by
      rw [e2, ← hg']
      simp
    have ecan : t2s ++ ('(' :: (q3 ++ r2)) = g' ++ (a0 :: (a' ++ ((v ++ w) ++ r1))) :=
      List.append_cancel_left (e1.symm.trans e3)
    cases g' with
    | cons x g'' =>
      have hxw : wchar x = true := class_word_all_wchar x
        (by rw [← hg']; exact List.mem_append_right g (List.mem_cons_self _ _))
      cases t2s with
      | nil =>
        rw [List.nil_append, List.cons_append] at ecan
        injection ecan with hhd _
        rw [← hhd] at hxw
        exact absurd hxw (by decide)
      | cons y ys =>
        rw [List.cons_append, List.cons_append] at ecan
        injection ecan with hhd _
        have hy : schar y = true := ht2all y (List.mem_cons_self _ _)
        rw [hhd] at hy
        rw [wchar_not_schar hxw] at hy
        exact absurd hy (by simp)
    | nil =>
      rw [List.nil_append] at ecan
      cases v with
      | nil => exact absurd rfl hvne
      | cons v0 v' =>
      have hv0 : wchar v0 = true := hvall v0 (List.mem_cons_self _ _)
      have heq2 : t2s ++ ('(' :: (q3 ++ r2)) = (a0 :: a') ++ (v0 :: (v' ++ (w ++ r1))) := by
        rw [ecan]
        simp
      obtain ⟨a'', ha''⟩ := run_prefix_le haall ht2all (wchar_not_schar hv0) heq2
      have ecan2 : '(' :: (q3 ++ r2) = a'' ++ (v0 :: (v' ++ (w ++ r1))) := by
        rw [← ha''] at heq2
        rw [List.append_assoc] at heq2
        exact List.append_cancel_left heq2
      cases a'' with
      | nil =>
        rw [List.nil_append] at ecan2
        injection ecan2 with hhd _
        rw [← hhd] at hv0
        exact absurd hv0 (by decide)
      | cons x xs =>
        rw [List.cons_append] at ecan2
        injection ecan2 with hhd _
        have hx : schar x = true := haall x
          (by rw [← ha'']; exact List.mem_append_right t2s (List.mem_cons_self _ _))
        rw [← hhd] at hx
        exact absurd hx (by decide)

/-- For each language's pattern bundle, no function-regex match can
begin at the same offset as a class-regex match. -/
theorem patterns_no_collision (lang : Str) {s : Str}
    (hc : ∃ t r, s = t ++ r ∧ Matches (selectPatterns lang).classRe t)
    (hf : ∃ t r, s = t ++ r ∧ Matches (selectPatterns lang).funcRe t) : False := by
  simp only [selectPatterns] at hc hf
  split_ifs at hc hf
  · exact no_collision_js hc hf
  · exact no_collision_py hc hf
  · exact no_collision_java hc hf
  · exact no_collision_gen hc hf

/-- A raw function match never sits exactly at a class match offset. -/
theorem func_index_ne_class_index (code lang : Str) (m : Nat × Nat × Caps)
    (hm : m ∈ rawFuncMatches code lang) (cls : ClassInfo)
    (hcls : cls ∈ classesOf code lang) : m.1 ≠ cls.index := by
  intro heq
  obtain ⟨mc, hmc, hform⟩ := List.mem_map.mp hcls
  have hidx : cls.index = mc.1 := by rw [← hform]
  have hfm := execAll_sound (selectPatterns lang).funcRe code m hm
  have hcm := execAll_sound (selectPatterns lang).classRe code mc hmc
  rw [heq, hidx] at hfm
  exact patterns_no_collision lang hcm hfm

/-! ## C5: the inside-a-class exclusion interval -/

/-- C5: a function-pattern match is excluded (the source's strict
`match.index > cls.index && match.index < cls.index + blockLength`
test) exactly when its offset falls within the half-open interval
`[classOffset, classOffset + blockLength)` for some previously found
class: the two tests agree because no function-pattern match can start
exactly at a class-pattern match offset, so a match at the left
endpoint of the interval never occurs. -/
theorem function_exclusion_halfopen (code lang : Str) (m : Nat × Nat × Caps)
    (hm : m ∈ rawFuncMatches code lang) :
    isInsideClass (classesOf code lang) code m.1 = true ↔
      ∃ cls ∈ classesOf code lang,
        cls.index ≤ m.1 ∧ m.1 < cls.index + (extractBlock code cls.index).length := by
  unfold isInsideClass
  rw [List.any_eq_true]
  constructor
  · intro ⟨cls, hcls, hcond⟩
    rw [Bool.and_eq_true, decide_eq_true_eq, decide_eq_true_eq] at hcond
    exact ⟨cls, hcls, le_of_lt hcond.1, hcond.2⟩
  · intro ⟨cls, hcls, hle, hlt⟩
    refine ⟨cls, hcls, ?_⟩
    rw [Bool.and_eq_true, decide_eq_true_eq, decide_eq_true_eq]
    have hne := func_index_ne_class_index code lang m hm cls hcls
    exact ⟨by omega, hlt⟩

/-- Witness for C5 at a concrete input holding one class and one
top-level function. -/
theorem function_exclusion_halfopen_witness :
    isInsideClass (classesOf "class A \x7b \x7d function f() \x7b \x7d".data "js".data)
        "class A \x7b \x7d function f() \x7b \x7d".data 12 = true ↔
      ∃ cls ∈ classesOf "class A \x7b \x7d function f() \x7b \x7d".data "js".data,
        cls.index ≤ 12 ∧
          12 < cls.index
            + (extractBlock "class A \x7b \x7d function f() \x7b \x7d".data cls.index).length :=
  function_exclusion_halfopen "class A \x7b \x7d function f() \x7b \x7d".data "js".data
    (12, 10, [(1, "f".data)]) (by decide)

end CodeExplainer
